import Mathlib

/-!
# tbox: the poll(2) backend of the poller, counting and strncpy

A shallow embedding of `src/tbox/platform/posix/poller_poll.c`, of
`src/algorithm/count.c` and of the generic `src/libc/string/strncpy.c`.

* The poller structure becomes the record `Poller`; every operation is a
  function from the old record to the new one.
* The bytes travelling through the socket pair (written to `pair[0]`, read
  from `pair[1]`) are kept in the field `wake`, oldest byte first.
* The environment of one `tb_poller_wait` call is explicit: the monotonic
  clock is a stream of readings and the backend is a script of `poll`
  reports, one per call of `poll`.  When the script is used up the call is
  still blocked inside `poll`, which is the result `ret = none`.
* `tb_assert` is a debug-only check and has no effect on the result;
  `tb_assert_and_check_return_val` and `tb_check_return_val` return.
-/

namespace TBox

/-! ## Constants -/

/-- Native readiness bit of `<sys/poll.h>`: data may be read. -/
def POLLIN : Nat := 0x001

/-- Native readiness bit of `<sys/poll.h>`: data may be written. -/
def POLLOUT : Nat := 0x004

/-- Native readiness bit of `<sys/poll.h>`: error condition. -/
def POLLERR : Nat := 0x008

/-- Native readiness bit of `<sys/poll.h>`: hang-up. -/
def POLLHUP : Nat := 0x010

/-- Modelled from the spec: the empty event set of the poller header, which
is absent from the sources. -/
def TB_POLLER_EVENT_NONE : Nat := 0

/-- Modelled from the spec: the symbolic flag READABLE of the poller header,
which is absent from the sources; a single bit. -/
def TB_POLLER_EVENT_RECV : Nat := 1

/-- Modelled from the spec: the symbolic flag WRITABLE of the poller header,
which is absent from the sources; a single bit different from READABLE. -/
def TB_POLLER_EVENT_SEND : Nat := 2

/-- The largest signed 32-bit value, the bound of the descriptor checks. -/
def TB_MAXS32 : Int := 2147483647

/-! ## Data model -/

/-- Modelled from the spec: the socket handle of the socket abstraction,
which is absent from the sources.  A live socket is identified by its
descriptor (`descriptor_of` and `socket_of` are mutual inverses); the null
handle is `none : Option Sock`. -/
structure Sock where
  fd : Int
  deriving DecidableEq, Repr

/-- Modelled from the spec: `descriptor_of(socket)`. -/
def tb_sock2fd (sock : Sock) : Int := sock.fd

/-- Modelled from the spec: `socket_of(descriptor)`; descriptors are
non-negative, any other value has no socket (null). -/
def tb_fd2sock (fd : Int) : Option Sock :=
  if 0 ≤ fd then some ⟨fd⟩ else none

/-- One `struct pollfd`: descriptor, requested events, returned events. -/
structure Pollfd where
  fd : Int
  events : Nat
  revents : Nat
  deriving DecidableEq, Repr

/-- The record `tb_poller_poll_t`, together with the bytes in flight in its
socket pair.  Private data are pointers, modelled as numbers with `0` null;
`privhash = none` is the null array pointer. -/
structure Poller where
  pair0 : Option Sock
  pair1 : Option Sock
  pfds : List Pollfd
  privhash : Option (List Nat)
  privhash_size : Nat
  wake : List Char
  deriving DecidableEq, Repr

/-- What the allocator and the vector do during one operation. -/
structure Env where
  alloc_ok : Bool
  junk : Nat
  append_ok : Bool
  deriving DecidableEq, Repr

/-- An environment in which every allocation succeeds. -/
def Env.good : Env := ⟨true, 170, true⟩

/-! ## Collaborators -/

/-- Modelled from the spec: the zero-initialised allocation of the generic
allocator, which is absent from the sources; `n` pointers, or `none` on
failure. -/
def tb_nalloc0 (env : Env) (n : Nat) : Option (List Nat) :=
  if env.alloc_ok then some (List.replicate n 0) else none

/-- Modelled from the spec: the reallocation of the generic allocator, which
is absent from the sources; the old contents are kept, the added space is
uninitialised; `none` on failure. -/
def tb_ralloc (env : Env) (mem : List Nat) (n : Nat) : Option (List Nat) :=
  if env.alloc_ok then some ((mem ++ List.replicate (n - mem.length) env.junk).take n) else none

/-- Modelled from the spec: the memory fill of the string primitives, which
is absent from the sources; `count` slots from index `start` get `v`. -/
def tb_memset (mem : List Nat) (start : Nat) (v : Nat) (count : Nat) : List Nat :=
  (List.range mem.length).map fun i => if start ≤ i ∧ i < start + count then v else mem.getD i 0

/-- Modelled from the spec: `append` of the generic growable array, which is
absent from the sources; it returns nothing, and nothing happens when the
array cannot grow. -/
def tb_vector_insert_tail (env : Env) (v : List Pollfd) (item : Pollfd) : List Pollfd :=
  if env.append_ok then v ++ [item] else v

/-- Modelled from the spec: `clear` of the generic growable array, which is
absent from the sources; every record is removed. -/
def tb_vector_clear (_v : List Pollfd) : List Pollfd := []

/-- Modelled from the spec: `send` of the socket abstraction, which is absent
from the sources; one byte is written to the write end of the pair. -/
def tb_socket_send (wake : List Char) (byte : Char) : List Char := wake ++ [byte]

/-- Modelled from the spec: `recv` of the socket abstraction, which is absent
from the sources; the oldest byte and the remaining ones, or `none` when
the count returned is not 1. -/
def tb_socket_recv : List Char → Option (Char × List Char)
  | [] => none
  | c :: rest => some (c, rest)

/-! ## Private-data index -/

/-- The function `tb_poller_privhash_set`. -/
def tb_poller_privhash_set (env : Env) (poller : Poller) (sock : Sock) (priv : Nat) : Poller :=
  let fd := tb_sock2fd sock
  if priv ≠ 0 then
    let need := (fd + 1).toNat
    match poller.privhash with
    | none =>
      match tb_nalloc0 env need with
      | none => poller
      | some mem =>
        { poller with privhash := some (mem.set fd.toNat priv), privhash_size := need }
    | some mem =>
      if need > poller.privhash_size then
        match tb_ralloc env mem need with
        | none => { poller with privhash := none }
        | some mem1 =>
          let mem2 := tb_memset mem1 poller.privhash_size 0 (need - poller.privhash_size)
          { poller with privhash := some (mem2.set fd.toNat priv), privhash_size := need }
      else
        { poller with privhash := some (mem.set fd.toNat priv) }
  else poller

/-- The function `tb_poller_privhash_get`.  The comparison of the descriptor
with the size is unsigned, so a negative descriptor is never below the
size.  The read `poller->privhash[fd]` goes through the array pointer: with
a null array and a descriptor below the size the code faults, which is
what `privhash_access_faults` tells; the value given here for that case has
no meaning. -/
def tb_poller_privhash_get (poller : Poller) (sock : Sock) : Nat :=
  let fd := tb_sock2fd sock
  if 0 ≤ fd ∧ fd < (poller.privhash_size : Int) then
    match poller.privhash with
    | some mem => mem.getD fd.toNat 0
    | none => 0
  else 0

/-- The function `tb_poller_privhash_del`.  The comparison is unsigned as in
`tb_poller_privhash_get`.  The write `poller->privhash[fd] = tb_null` goes
through the array pointer: with a null array and a descriptor below the
size the code faults, which is what `privhash_access_faults` tells; the
poller given here for that case has no meaning. -/
def tb_poller_privhash_del (poller : Poller) (sock : Sock) : Poller :=
  let fd := tb_sock2fd sock
  if 0 ≤ fd ∧ fd < (poller.privhash_size : Int) then
    { poller with privhash := poller.privhash.map fun mem => mem.set fd.toNat 0 }
  else poller

/-- The access `poller->privhash[fd]` of `tb_poller_privhash_get` and of
`tb_poller_privhash_del`, made when the descriptor is below the size, goes
through a null array: the call faults. -/
def privhash_access_faults (poller : Poller) (sock : Sock) : Bool :=
  let fd := tb_sock2fd sock
  decide (0 ≤ fd ∧ fd < (poller.privhash_size : Int)) && poller.privhash.isNone

/-- The array and its recorded size agree: a null array has size 0. -/
def index_wf (poller : Poller) : Bool :=
  match poller.privhash with
  | none => poller.privhash_size == 0
  | some mem => mem.length == poller.privhash_size

/-! ## Operations -/

/-- Translation of the symbolic interest flags to the native ones, as done
by `tb_poller_insert` on a zeroed `struct pollfd`. -/
def insert_events (events : Nat) : Nat :=
  let e0 : Nat := 0
  let e1 := if events &&& TB_POLLER_EVENT_RECV ≠ 0 then e0 ||| POLLIN else e0
  if events &&& TB_POLLER_EVENT_SEND ≠ 0 then e1 ||| POLLOUT else e1

/-- The function `tb_poller_insert`; the socket may be null. -/
def tb_poller_insert (env : Env) (poller : Poller) (sock : Option Sock) (events : Nat)
    (priv : Nat) : Bool × Poller :=
  match sock with
  | none => (false, poller)
  | some sock =>
    let pfd : Pollfd := { fd := tb_sock2fd sock, events := insert_events events, revents := 0 }
    let poller := { poller with pfds := tb_vector_insert_tail env poller.pfds pfd }
    let poller := tb_poller_privhash_set env poller sock priv
    let poller :=
      if poller.pair0.isSome ∧ events ≠ 0 then
        { poller with wake := tb_socket_send poller.wake 'p' }
      else poller
    (true, poller)

/-- What `tb_poller_init` gets from its collaborators. -/
structure InitEnv where
  malloc_ok : Bool
  vector_ok : Bool
  pair : Option (Sock × Sock)
  ins : Env
  deriving DecidableEq, Repr

/-- The function `tb_poller_init`; `none` is the null poller. -/
def tb_poller_init (maxn : Nat) (env : InitEnv) : Option Poller :=
  if maxn = 0 then none
  else if !env.malloc_ok then none
  else if !env.vector_ok then none
  else
    match env.pair with
    | none => none
    | some (s0, s1) =>
      let poller : Poller :=
        { pair0 := some s0, pair1 := some s1, pfds := [], privhash := none,
          privhash_size := 0, wake := [] }
      match tb_poller_insert env.ins poller poller.pair1 TB_POLLER_EVENT_RECV 0 with
      | (false, _) => none
      | (true, poller) => some poller

/-- The function `tb_poller_clear`. -/
def tb_poller_clear (poller : Poller) : Poller :=
  let poller := { poller with pfds := tb_vector_clear poller.pfds }
  if poller.pair0.isSome then { poller with wake := tb_socket_send poller.wake 'p' } else poller

/-- The function `tb_poller_kill`. -/
def tb_poller_kill (poller : Poller) : Poller :=
  if poller.pair0.isSome then { poller with wake := tb_socket_send poller.wake 'k' } else poller

/-- The function `tb_poller_spak`. -/
def tb_poller_spak (poller : Poller) : Poller :=
  if poller.pair0.isSome then { poller with wake := tb_socket_send poller.wake 'p' } else poller

/-- The function `tb_poller_walk_remove`: is this the record to remove?  The
private argument is the descriptor looked for. -/
def tb_poller_walk_remove (item : Pollfd) (priv : Int) : Bool :=
  decide (item.fd = priv)

/-- The function `tb_poller_walk_modify`: the private argument is the pair of
the descriptor looked for and the events.  The result is the flag returned
(`false` ends the walk) and the record as the function leaves it. -/
def tb_poller_walk_modify (item : Pollfd) (tuple : Int × Nat) : Bool × Pollfd :=
  let fd := tuple.1
  if item.fd = fd then
    let events := tuple.2
    let e0 : Nat := 0
    let e1 := if events &&& TB_POLLER_EVENT_RECV ≠ 0 then e0 ||| POLLIN else e0
    let e2 := if events &&& TB_POLLER_EVENT_SEND ≠ 0 then e1 ||| POLLOUT else e1
    (false, { item with events := e2 })
  else (true, item)

/-- Modelled from the spec: the algorithm `tb_remove_first_if`, which is
absent from the sources; it scans the records in order and erases the first
one for which the predicate holds, and does nothing when there is none. -/
def tb_remove_first_if (pred : Pollfd → Bool) : List Pollfd → List Pollfd
  | [] => []
  | item :: rest => if pred item then rest else item :: tb_remove_first_if pred rest

/-- Modelled from the spec: the algorithm `tb_walk_all`, which is absent from
the sources; it hands the records in order to the function, which works on
the record in place, until the function returns `false`. -/
def tb_walk_all (func : Pollfd → Bool × Pollfd) : List Pollfd → List Pollfd
  | [] => []
  | item :: rest =>
    match func item with
    | (true, item1) => item1 :: tb_walk_all func rest
    | (false, item1) => item1 :: rest

/-- The function `tb_poller_remove`; the socket may be null. -/
def tb_poller_remove (poller : Poller) (sock : Option Sock) : Bool × Poller :=
  match sock with
  | none => (false, poller)
  | some sock =>
    let poller := { poller with
      pfds := tb_remove_first_if (fun item => tb_poller_walk_remove item (tb_sock2fd sock))
        poller.pfds }
    let poller := tb_poller_privhash_del poller sock
    let poller :=
      if poller.pair0.isSome then { poller with wake := tb_socket_send poller.wake 'p' }
      else poller
    (true, poller)

/-- The call `tb_poller_remove` faults: its one access to memory that can is
the write of `tb_poller_privhash_del`, made for every socket that is not
null. -/
def tb_poller_remove_faults (poller : Poller) (sock : Option Sock) : Bool :=
  match sock with
  | none => false
  | some sock => privhash_access_faults poller sock

/-- The function `tb_poller_modify`; the socket may be null. -/
def tb_poller_modify (env : Env) (poller : Poller) (sock : Option Sock) (events : Nat)
    (priv : Nat) : Bool × Poller :=
  match sock with
  | none => (false, poller)
  | some sock =>
    let tuple : Int × Nat := (tb_sock2fd sock, events)
    let poller := { poller with
      pfds := tb_walk_all (fun item => tb_poller_walk_modify item tuple) poller.pfds }
    let poller := tb_poller_privhash_set env poller sock priv
    let poller :=
      if poller.pair0.isSome ∧ events ≠ 0 then
        { poller with wake := tb_socket_send poller.wake 'p' }
      else poller
    (true, poller)

/-- The function `tb_poller_exit`: the fields of the record as they are when
the record itself is freed. -/
def tb_poller_exit (_poller : Poller) : Poller :=
  { pair0 := none, pair1 := none, pfds := [], privhash := none, privhash_size := 0, wake := [] }

/-- One call of a public operation that changes the watch set. -/
inductive Op where
  | insert (env : Env) (sock : Option Sock) (events : Nat) (priv : Nat)
  | remove (sock : Option Sock)
  | modify (env : Env) (sock : Option Sock) (events : Nat) (priv : Nat)
  | clear
  deriving DecidableEq, Repr

/-- The poller after one call. -/
def Op.apply (poller : Poller) : Op → Poller
  | .insert env sock events priv => (tb_poller_insert env poller sock events priv).2
  | .remove sock => (tb_poller_remove poller sock).2
  | .modify env sock events priv => (tb_poller_modify env poller sock events priv).2
  | .clear => tb_poller_clear poller

/-- The poller after a sequence of calls, first call first. -/
def run_ops (poller : Poller) : List Op → Poller
  | [] => poller
  | op :: ops => run_ops (op.apply poller) ops

/-- Every allocation made during the call succeeds. -/
def Op.alloc_ok : Op → Bool
  | .insert env _ _ _ => env.alloc_ok
  | .remove _ => true
  | .modify env _ _ _ => env.alloc_ok
  | .clear => true

/-- The call is an insert, remove or modify on a socket whose descriptor is
not `w` (or on the null socket). -/
def Op.avoids (w : Int) : Op → Bool
  | .insert _ sock _ _ => sock.all fun s => decide (s.fd ≠ w)
  | .remove sock => sock.all fun s => decide (s.fd ≠ w)
  | .modify _ sock _ _ => sock.all fun s => decide (s.fd ≠ w)
  | .clear => false

/-! ## Waiting -/

/-- One report of the backend: the value returned by `poll` and the
returned events it stored, record by record. -/
structure PollRes where
  cfdn : Int
  revents : List Nat
  deriving DecidableEq, Repr

/-- One invocation of the event function. -/
structure Callback where
  sock : Sock
  events : Nat
  priv : Nat
  deriving DecidableEq, Repr

/-- One call of `poll`: the timeout as it arrives in the `int` parameter of
`poll`, and the clock reading of the loop condition that let the iteration
start (`none` when the condition did not read the clock). -/
structure PollCall where
  timeout : Int
  now : Option Int
  deriving DecidableEq, Repr

/-- The variables of a running `tb_poller_wait`, with the trace of what it
did so far. -/
structure WaitSt where
  poller : Poller
  wait : Int
  stop : Bool
  ticks : Nat
  calls : List Callback
  polls : List PollCall
  deriving DecidableEq, Repr

/-- The end of a `tb_poller_wait` call: the value returned, or `none` when
the call is still blocked inside `poll`. -/
structure WaitOut where
  ret : Option Int
  st : WaitSt
  deriving DecidableEq, Repr

/-- The backend stores the returned events in the records. -/
def poll_store : List Pollfd → List Nat → List Pollfd
  | [], _ => []
  | p :: ps, [] => { p with revents := 0 } :: poll_store ps []
  | p :: ps, r :: rs => { p with revents := r } :: poll_store ps rs

/-- Translation of the native returned events to the symbolic flags, as done
in the loop of `tb_poller_wait`. -/
def wait_events (poll_events : Nat) : Nat :=
  let e0 := TB_POLLER_EVENT_NONE
  let e1 := if poll_events &&& POLLIN ≠ 0 then e0 ||| TB_POLLER_EVENT_RECV else e0
  let e2 := if poll_events &&& POLLOUT ≠ 0 then e1 ||| TB_POLLER_EVENT_SEND else e1
  if poll_events &&& POLLHUP ≠ 0 ∧ e2 &&& (TB_POLLER_EVENT_RECV ||| TB_POLLER_EVENT_SEND) = 0 then
    e2 ||| (TB_POLLER_EVENT_RECV ||| TB_POLLER_EVENT_SEND)
  else e2

/-- The `for` loop of `tb_poller_wait` over the records still to visit.
The first component is the value of an early `return`, if there was one. -/
def wait_sync : List Pollfd → WaitSt → Option Int × WaitSt
  | [], st => (none, st)
  | pfd :: rest, st =>
    match tb_fd2sock pfd.fd with
    | none => (some (-1), st)
    | some sock =>
      let poll_events := pfd.revents
      if poll_events = 0 then wait_sync rest st
      else if some sock = st.poller.pair1 ∧ poll_events &&& POLLIN ≠ 0 then
        match tb_socket_recv st.poller.wake with
        | none => (some (-1), st)
        | some (spak, wake) =>
          let st := { st with poller := { st.poller with wake := wake } }
          if spak = 'k' then (some (-1), st)
          else wait_sync rest { st with stop := true }
      else if some sock = st.poller.pair1 then wait_sync rest st
      else
        let events := wait_events poll_events
        let priv := tb_poller_privhash_get st.poller sock
        wait_sync rest { st with calls := st.calls ++ [⟨sock, events, priv⟩] }

/-- The conversion of the `tb_long_t` timeout to the `int` parameter of
`poll`: the value modulo 2^32, taken in the signed 32-bit range. -/
def to_int (x : Int) : Int := (x + 2147483648) % 4294967296 - 2147483648

/-- The condition of the `while` loop, evaluated left to right: `none`
leaves the loop, `some now` enters the body, `now` being the clock reading
taken, if any.  The deadline `time + timeout` is the sum of the two numbers;
a 64-bit signed overflow of this sum is undefined in C and is not part of
the model, so what is proved of the deadline assumes that the sum fits. -/
def wait_guard (mclock : Nat → Int) (timeout time : Int) (st : WaitSt) :
    Option (Option Int) × WaitSt :=
  if st.wait ≠ 0 then (none, st)
  else if st.stop then (none, st)
  else if timeout < 0 then (some none, st)
  else
    let now := mclock st.ticks
    let st := { st with ticks := st.ticks + 1 }
    if now < time + timeout then (some (some now), st) else (none, st)

/-- The body of the `while` loop from the call of `poll` on, for the report
`r` of the backend.  The call `poll(pfds, pfdm, timeout)` converts the
timeout to `int`. -/
def wait_body (timeout : Int) (now : Option Int) (r : PollRes) (st : WaitSt) :
    Option Int × WaitSt :=
  let pfds := poll_store st.poller.pfds r.revents
  let st := { st with poller := { st.poller with pfds := pfds },
                      polls := st.polls ++ [⟨to_int timeout, now⟩] }
  if r.cfdn < 0 then (some (-1), st)
  else if r.cfdn = 0 then (some 0, st)
  else wait_sync pfds st

/-- The `while` loop of `tb_poller_wait`, one report of the backend per
iteration. -/
def wait_loop (mclock : Nat → Int) (timeout time : Int) : List PollRes → WaitSt → WaitOut
  | [], st =>
    match wait_guard mclock timeout time st with
    | (none, st) => ⟨some st.wait, st⟩
    | (some now, st) =>
      if st.poller.pfds.length = 0 then ⟨some (-1), st⟩
      else ⟨none, { st with polls := st.polls ++ [⟨to_int timeout, now⟩] }⟩
  | r :: script, st =>
    match wait_guard mclock timeout time st with
    | (none, st) => ⟨some st.wait, st⟩
    | (some now, st) =>
      if st.poller.pfds.length = 0 then ⟨some (-1), st⟩
      else
        match wait_body timeout now r st with
        | (some v, st) => ⟨some v, st⟩
        | (none, st) => wait_loop mclock timeout time script st

/-- The function `tb_poller_wait` on an initialised poller with a non-null
event function: `mclock` is the stream of clock readings, `script` the
reports of the backend. -/
def tb_poller_wait (mclock : Nat → Int) (poller : Poller) (timeout : Int)
    (script : List PollRes) : WaitOut :=
  let time := mclock 0
  wait_loop mclock timeout time script
    { poller := poller, wait := 0, stop := false, ticks := 1, calls := [], polls := [] }

/-! ## Algorithms: counting -/

/-- Modelled from the spec: the forward-mode bit of the iterator header,
which is absent from the sources. -/
def TB_ITERATOR_MODE_FORWARD : Nat := 1

/-- Modelled from the spec: the iterator interface of the container library,
which is absent from the sources; it is taken as given.  Positions, items
and the data compared with are machine words; `comp` is the comparator of
the iterator itself. -/
structure Iterator where
  mode : Nat
  head : Nat
  tail : Nat
  next : Nat → Nat
  item : Nat → Nat
  comp : Nat → Nat → Int

/-- The loop of `tb_count`: the walk of the `tb_for` macro from the position
`itor` to `tail`, with the items counted so far.  The walk of an iterator
need not end; `none` is a walk that did not reach `tail` within the fuel. -/
def tb_count_for (it : Iterator) (tail data : Nat) (comp : Nat → Nat → Int) :
    Nat → Nat → Nat → Option Nat
  | 0, itor, count => if itor = tail then some count else none
  | fuel + 1, itor, count =>
    if itor = tail then some count
    else
      let item := it.item itor
      let count := if comp item data = 0 then count + 1 else count
      tb_count_for it tail data comp fuel (it.next itor) count

/-- The function `tb_count`; the iterator and the comparator may be null. -/
def tb_count (iterator : Option Iterator) (head tail data : Nat)
    (comp : Option (Nat → Nat → Int)) (fuel : Nat) : Option Nat :=
  match iterator with
  | none => some tail
  | some it =>
    if it.mode &&& TB_ITERATOR_MODE_FORWARD = 0 then some tail
    else if head = tail then some tail
    else
      let comp := match comp with
        | none => it.comp
        | some c => c
      tb_count_for it tail data comp fuel head 0

/-- The function `tb_count_all`, for an iterator that is not null (it asks the
iterator for its head and tail before anything else). -/
def tb_count_all (it : Iterator) (data : Nat) (comp : Option (Nat → Nat → Int))
    (fuel : Nat) : Option Nat :=
  tb_count (some it) it.head it.tail data comp fuel

/-- The iterator of an array of items: positions are indices, the tail is
the length, the comparator is the difference. -/
def array_iterator (items : List Nat) : Iterator :=
  { mode := TB_ITERATOR_MODE_FORWARD, head := 0, tail := items.length,
    next := fun i => i + 1, item := fun i => items.getD i 0,
    comp := fun a b => (a : Int) - (b : Int) }

/-! ## String primitives: strncpy -/

/-- The end of a `tb_strncpy` call: the memory at `s1`, the pointer returned
as an offset from `s1`, the offsets from `s2` that were read, in order, and
the number of iterations of the loop. -/
structure Strncpy where
  s1 : List Nat
  ret : Nat
  reads : List Nat
  iters : Nat
  deriving DecidableEq, Repr

/-- The loop of the generic `tb_strncpy`: `n` iterations to go, `s` and `s2`
are the offsets of the two pointers, `mem2` is the memory at the source. -/
def tb_strncpy_loop (mem2 : List Nat) : Nat → Nat → Nat → Strncpy → Strncpy
  | 0, s, _, st => { st with ret := s }
  | n + 1, s, s2, st =>
    let c := mem2.getD s2 0
    let st := { st with s1 := st.s1.set s c, reads := st.reads ++ [s2], iters := st.iters + 1 }
    let s2 := if c ≠ 0 then s2 + 1 else s2
    tb_strncpy_loop mem2 n (s + 1) s2 st

/-- The generic function `tb_strncpy`; a null pointer is `none`, and the
result `none` is the null pointer returned after the check of the
arguments. -/
def tb_strncpy (s1 s2 : Option (List Nat)) (n : Nat) : Option Strncpy :=
  match s1, s2 with
  | some mem1, some mem2 => some (tb_strncpy_loop mem2 n 0 0 ⟨mem1, 0, [], 0⟩)
  | _, _ => none

/-! ## States and traces named in the proofs -/

/-- The state after the oldest byte in flight was read. -/
def WaitSt.recvd (st : WaitSt) (bytes : List Char) : WaitSt :=
  { st with poller := { st.poller with wake := bytes } }

/-- The state after one more invocation of the event function. -/
def WaitSt.called (st : WaitSt) (pfd : Pollfd) (sock : Sock) : WaitSt :=
  { st with calls := st.calls ++
      [⟨sock, wait_events pfd.revents, tb_poller_privhash_get st.poller sock⟩] }

/-- The variables of a wait call when its first iteration starts. -/
def WaitSt.enter (p : Poller) (timeout : Int) : WaitSt :=
  { poller := p, wait := 0, stop := false, ticks := if timeout < 0 then 1 else 2,
    calls := [], polls := [] }

/-- The clock reading that starts the first iteration, if one is taken. -/
def first_now (mclock : Nat → Int) (timeout : Int) : Option Int :=
  if timeout < 0 then none else some (mclock 1)

/-- Where the invocations of the event function come from: each one made by
the loop over the records `l` is for a record of `l` with returned events,
which is not the read end of the pair, and carries the translation of these
returned events and the private data of the record's socket. -/
def FromRecord (p : Poller) (l : List Pollfd) (c : Callback) : Prop :=
  ∃ e ∈ l, e.revents ≠ 0 ∧ c.sock = ⟨e.fd⟩ ∧ some c.sock ≠ p.pair1 ∧
    c.events = wait_events e.revents ∧ c.priv = tb_poller_privhash_get p c.sock

/-! ## A concrete poller -/

/-- What `tb_poller_init` gets when everything succeeds and the socket pair
has the descriptors 3 (write end) and 4 (read end). -/
def demo_env : InitEnv := ⟨true, true, some (⟨3⟩, ⟨4⟩), Env.good⟩

/-- The poller built by `tb_poller_init` on `demo_env` after socket 5 was
inserted for READABLE without private data and two wait calls consumed the
POKE bytes of the two inserts: the table holds the read end 4 and socket 5,
no byte is in flight. -/
def demo : Poller :=
  { pair0 := some ⟨3⟩, pair1 := some ⟨4⟩,
    pfds := [⟨4, POLLIN, POLLIN⟩, ⟨5, POLLIN, 0⟩],
    privhash := none, privhash_size := 0, wake := [] }

/-- The poller `demo` with the private data 42 stored for socket 5. -/
def demo_priv : Poller :=
  { demo with privhash := some [0, 0, 0, 0, 0, 42], privhash_size := 6 }

/-- The poller built by `tb_poller_init` on `demo_env` after an insert of
socket 5 with private data 42 and an insert of socket 7 with private data
43 during which the reallocation of the index fails. -/
def demo_lost : Poller :=
  run_ops ((tb_poller_init 8 demo_env).getD demo)
    [Op.insert Env.good (some ⟨5⟩) TB_POLLER_EVENT_RECV 42,
     Op.insert ⟨false, 0, true⟩ (some ⟨7⟩) TB_POLLER_EVENT_RECV 43]

/-- A clock that stands still. -/
def still : Nat → Int := fun _ => 0

/-- A clock that reads 0 twice and 60 from then on. -/
def late : Nat → Int := fun n => if n ≤ 1 then 0 else 60

/-! ## Lemmas on the collaborators -/

theorem length_memset (mem : List Nat) (s v c : Nat) :
    (tb_memset mem s v c).length = mem.length := by
  simp [tb_memset]

theorem getD_memset (mem : List Nat) (s c i : Nat) :
    (tb_memset mem s 0 c).getD i 0 = if s ≤ i ∧ i < s + c then 0 else mem.getD i 0 := by
  simp only [tb_memset, List.getD_eq_getElem?_getD, List.getElem?_map]
  by_cases h : i < mem.length
  · rw [List.getElem?_range h]; simp
  · rw [List.getElem?_eq_none (by simpa using h), List.getElem?_eq_none (by simpa using h)]
    simp

theorem ralloc_ok (env : Env) (mem : List Nat) (n : Nat) (hok : env.alloc_ok = true) :
    ∃ mem1, tb_ralloc env mem n = some mem1 ∧ mem1.length = n ∧
      ∀ i, i < mem.length → i < n → mem1.getD i 0 = mem.getD i 0 := by
  refine ⟨(mem ++ List.replicate (n - mem.length) env.junk).take n, by simp [tb_ralloc, hok], ?_, ?_⟩
  · simp; omega
  · intro i h hn
    simp [List.getD_eq_getElem?_getD, List.getElem?_take, hn, List.getElem?_append, h]

/-! ## Lemmas on the private-data index -/

/-- Reading is a bounds check followed by an array access. -/
theorem privhash_get_eq (p : Poller) (d : Int) (h0 : 0 ≤ d) :
    tb_poller_privhash_get p ⟨d⟩ =
      if d < (p.privhash_size : Int) then (p.privhash.getD []).getD d.toNat 0 else 0 := by
  unfold tb_poller_privhash_get tb_sock2fd
  cases h : p.privhash <;> simp [h0]

/-- What a successful store of a non-null value leaves behind. -/
theorem privhash_set_spec (env : Env) (p : Poller) (d : Int) (v : Nat)
    (hwf : index_wf p = true) (hd : 0 < d) (hv : v ≠ 0) (hok : env.alloc_ok = true) :
    ∃ mem, (tb_poller_privhash_set env p ⟨d⟩ v).privhash = some mem ∧
      mem.length = (tb_poller_privhash_set env p ⟨d⟩ v).privhash_size ∧
      (tb_poller_privhash_set env p ⟨d⟩ v).privhash_size = max p.privhash_size (d.toNat + 1) ∧
      ∀ i, mem.getD i 0 =
        if i = d.toNat then v
        else if i < p.privhash_size then (p.privhash.getD []).getD i 0 else 0 := by
  have hneed : (d + 1).toNat = d.toNat + 1 := by omega
  unfold tb_poller_privhash_set tb_sock2fd
  simp only [hv, ne_eq, not_false_eq_true, if_true, hneed]
  cases hp : p.privhash with
  | none =>
    have hs : p.privhash_size = 0 := by simpa [index_wf, hp] using hwf
    simp only [tb_nalloc0, hok, if_true]
    refine ⟨_, rfl, by simp, by simp [hs], ?_⟩
    intro i
    by_cases hi : i = d.toNat
    · subst hi; simp [List.getD_eq_getElem?_getD, List.getElem?_set]
    · simp only [List.getD_eq_getElem?_getD, List.getElem?_set, List.getElem?_replicate, hi, hs,
        Ne.symm hi, if_false, Nat.not_lt_zero]
      split_ifs <;> rfl
  | some mem =>
    have hs : mem.length = p.privhash_size := by simpa [index_wf, hp] using hwf
    by_cases hg : d.toNat + 1 > p.privhash_size
    · obtain ⟨mem1, h1, hl1, hg1⟩ := ralloc_ok env mem (d.toNat + 1) hok
      simp only [hg, if_true, h1]
      refine ⟨_, rfl, by simp [length_memset, hl1], by simp; omega, ?_⟩
      intro i
      by_cases hi : i = d.toNat
      · subst hi; simp [List.getD_eq_getElem?_getD, List.getElem?_set, length_memset, hl1]
      · have := getD_memset mem1 p.privhash_size (d.toNat + 1 - p.privhash_size) i
        rw [List.getD_eq_getElem?_getD] at this
        simp only [List.getD_eq_getElem?_getD, List.getElem?_set, Ne.symm hi, if_false, this, hi,
          Option.getD_some]
        by_cases hlt : i < p.privhash_size
        · have h2 := hg1 i (by omega) (by omega)
          simp only [List.getD_eq_getElem?_getD] at h2
          simp [hlt, h2, show ¬ p.privhash_size ≤ i by omega]
        · by_cases hlt2 : i < d.toNat + 1
          · simp [hlt, show p.privhash_size ≤ i by omega,
              show i < p.privhash_size + (d.toNat + 1 - p.privhash_size) by omega]
          · simp only [hlt, if_false]
            rw [List.getElem?_eq_none (by omega)]
            simp
    · simp only [hg, if_false]
      refine ⟨_, rfl, by simp [hs], by simp; omega, ?_⟩
      intro i
      by_cases hi : i = d.toNat
      · subst hi
        simp [List.getD_eq_getElem?_getD, List.getElem?_set, show d.toNat < mem.length by omega]
      · by_cases hlt : i < p.privhash_size
        · simp [List.getD_eq_getElem?_getD, List.getElem?_set, Ne.symm hi, hi, hlt]
        · simp only [List.getD_eq_getElem?_getD, List.getElem?_set, Ne.symm hi, if_false, hi, hlt,
            Option.getD_some]
          rw [List.getElem?_eq_none (by omega)]
          simp

/-- A successful store of a non-null value keeps the array and its size in
agreement. -/
theorem privhash_set_wf (env : Env) (p : Poller) (d : Int) (v : Nat)
    (hwf : index_wf p = true) (hd : 0 < d) (hv : v ≠ 0) (hok : env.alloc_ok = true) :
    index_wf (tb_poller_privhash_set env p ⟨d⟩ v) = true := by
  obtain ⟨mem, hm, hl, _, _⟩ := privhash_set_spec env p d v hwf hd hv hok
  simp [index_wf, hm, hl]

/-! ## Lemmas on the loop over the records -/

theorem length_poll_store (l : List Pollfd) (rs : List Nat) :
    (poll_store l rs).length = l.length := by
  induction l generalizing rs with
  | nil => simp [poll_store]
  | cons p ps ih => cases rs <;> simp [poll_store, ih]

theorem wait_sync_null (pfd : Pollfd) (rest : List Pollfd) (st : WaitSt)
    (h : tb_fd2sock pfd.fd = none) : wait_sync (pfd :: rest) st = (some (-1), st) := by
  simp [wait_sync, h]

theorem wait_sync_idle (pfd : Pollfd) (rest : List Pollfd) (st : WaitSt) (sock : Sock)
    (h : tb_fd2sock pfd.fd = some sock) (h0 : pfd.revents = 0) :
    wait_sync (pfd :: rest) st = wait_sync rest st := by
  simp [wait_sync, h, h0]

theorem wait_sync_wake_fail (pfd : Pollfd) (rest : List Pollfd) (st : WaitSt) (sock : Sock)
    (h : tb_fd2sock pfd.fd = some sock) (h0 : pfd.revents ≠ 0)
    (h1 : some sock = st.poller.pair1) (h2 : pfd.revents &&& POLLIN ≠ 0)
    (hw : st.poller.wake = []) :
    wait_sync (pfd :: rest) st = (some (-1), st) := by
  simp [wait_sync, h, h0, h1.symm, h2, hw, tb_socket_recv]

theorem wait_sync_wake_kill (pfd : Pollfd) (rest : List Pollfd) (st : WaitSt) (sock : Sock)
    (bytes : List Char)
    (h : tb_fd2sock pfd.fd = some sock) (h0 : pfd.revents ≠ 0)
    (h1 : some sock = st.poller.pair1) (h2 : pfd.revents &&& POLLIN ≠ 0)
    (hw : st.poller.wake = 'k' :: bytes) :
    wait_sync (pfd :: rest) st = (some (-1), st.recvd bytes) := by
  simp [wait_sync, h, h0, h1.symm, h2, hw, tb_socket_recv, WaitSt.recvd]

theorem wait_sync_wake_poke (pfd : Pollfd) (rest : List Pollfd) (st : WaitSt) (sock : Sock)
    (c : Char) (bytes : List Char)
    (h : tb_fd2sock pfd.fd = some sock) (h0 : pfd.revents ≠ 0)
    (h1 : some sock = st.poller.pair1) (h2 : pfd.revents &&& POLLIN ≠ 0)
    (hw : st.poller.wake = c :: bytes) (hc : c ≠ 'k') :
    wait_sync (pfd :: rest) st = wait_sync rest { st.recvd bytes with stop := true } := by
  simp [wait_sync, h, h0, h1.symm, h2, hw, tb_socket_recv, WaitSt.recvd, hc]

theorem wait_sync_wake_skip (pfd : Pollfd) (rest : List Pollfd) (st : WaitSt) (sock : Sock)
    (h : tb_fd2sock pfd.fd = some sock) (h0 : pfd.revents ≠ 0)
    (h1 : some sock = st.poller.pair1) (h2 : ¬ pfd.revents &&& POLLIN ≠ 0) :
    wait_sync (pfd :: rest) st = wait_sync rest st := by
  simp only [ne_eq, not_not] at h2
  simp [wait_sync, h, h0, h1.symm, h2]

theorem wait_sync_user (pfd : Pollfd) (rest : List Pollfd) (st : WaitSt) (sock : Sock)
    (h : tb_fd2sock pfd.fd = some sock) (h0 : pfd.revents ≠ 0)
    (h1 : some sock ≠ st.poller.pair1) :
    wait_sync (pfd :: rest) st = wait_sync rest (st.called pfd sock) := by
  simp [wait_sync, h, h0, h1, WaitSt.called]

/-- The seven ways through one round of the loop over the records. -/
theorem wait_sync_cases (pfd : Pollfd) (rest : List Pollfd) (st : WaitSt) :
    wait_sync (pfd :: rest) st = (some (-1), st) ∨
    wait_sync (pfd :: rest) st = wait_sync rest st ∨
    (∃ bytes, st.poller.wake = 'k' :: bytes ∧
      wait_sync (pfd :: rest) st = (some (-1), st.recvd bytes)) ∨
    (∃ c bytes, st.poller.wake = c :: bytes ∧
      wait_sync (pfd :: rest) st = wait_sync rest { st.recvd bytes with stop := true }) ∨
    (∃ sock, tb_fd2sock pfd.fd = some sock ∧ pfd.revents ≠ 0 ∧ some sock ≠ st.poller.pair1 ∧
      wait_sync (pfd :: rest) st = wait_sync rest (st.called pfd sock)) := by
  cases h : tb_fd2sock pfd.fd with
  | none => exact Or.inl (wait_sync_null pfd rest st h)
  | some sock =>
    by_cases h0 : pfd.revents = 0
    · exact Or.inr (Or.inl (wait_sync_idle pfd rest st sock h h0))
    · by_cases h1 : some sock = st.poller.pair1
      · by_cases h2 : pfd.revents &&& POLLIN ≠ 0
        · cases hw : st.poller.wake with
          | nil => exact Or.inl (wait_sync_wake_fail pfd rest st sock h h0 h1 h2 hw)
          | cons c bytes =>
            by_cases hc : c = 'k'
            · subst hc
              exact Or.inr (Or.inr (Or.inl
                ⟨bytes, rfl, wait_sync_wake_kill pfd rest st sock bytes h h0 h1 h2 hw⟩))
            · exact Or.inr (Or.inr (Or.inr (Or.inl
                ⟨c, bytes, rfl, wait_sync_wake_poke pfd rest st sock c bytes h h0 h1 h2 hw hc⟩)))
        · exact Or.inr (Or.inl (wait_sync_wake_skip pfd rest st sock h h0 h1 h2))
      · exact Or.inr (Or.inr (Or.inr (Or.inr
          ⟨sock, rfl, h0, h1, wait_sync_user pfd rest st sock h h0 h1⟩)))

/-- The loop over the records touches neither the loop variable `wait`,
the clock, the trace of `poll` calls, nor the poller apart from the bytes in
flight. -/
theorem wait_sync_frame (l : List Pollfd) (st : WaitSt) :
    (wait_sync l st).2.polls = st.polls ∧ (wait_sync l st).2.wait = st.wait ∧
    (wait_sync l st).2.ticks = st.ticks ∧
    (wait_sync l st).2.poller.pfds = st.poller.pfds ∧
    (wait_sync l st).2.poller.pair1 = st.poller.pair1 ∧
    (wait_sync l st).2.poller.privhash = st.poller.privhash ∧
    (wait_sync l st).2.poller.privhash_size = st.poller.privhash_size := by
  induction l generalizing st with
  | nil => simp [wait_sync]
  | cons pfd rest ih =>
    rcases wait_sync_cases pfd rest st with h | h | ⟨b, _, h⟩ | ⟨c, b, _, h⟩ | ⟨s, _, _, _, h⟩
    · simp [h]
    · rw [h]; exact ih st
    · simp [h, WaitSt.recvd]
    · rw [h]; simpa [WaitSt.recvd] using ih { st.recvd b with stop := true }
    · rw [h]; simpa [WaitSt.called] using ih (st.called pfd s)

theorem fd2sock_some (fd : Int) (sock : Sock) (h : tb_fd2sock fd = some sock) :
    sock = ⟨fd⟩ ∧ 0 ≤ fd := by
  unfold tb_fd2sock at h
  split_ifs at h with h0
  exact ⟨(Option.some.inj h).symm, h0⟩

theorem poll_store_store (l : List Pollfd) (a b : List Nat) :
    poll_store (poll_store l a) b = poll_store l b := by
  induction l generalizing a b with
  | nil => simp [poll_store]
  | cons p ps ih => cases a <;> cases b <;> simp [poll_store, ih]

theorem FromRecord.of_eq (p q : Poller) (l : List Pollfd) (c : Callback)
    (h1 : q.pair1 = p.pair1) (h2 : q.privhash = p.privhash)
    (h3 : q.privhash_size = p.privhash_size) (h : FromRecord q l c) : FromRecord p l c := by
  obtain ⟨e, he, h0, hs, hp, hev, hpr⟩ := h
  refine ⟨e, he, h0, hs, h1 ▸ hp, hev, ?_⟩
  rw [hpr]
  unfold tb_poller_privhash_get
  rw [h2, h3]

theorem wait_sync_calls (l : List Pollfd) (st : WaitSt) :
    ∀ c ∈ (wait_sync l st).2.calls, c ∈ st.calls ∨ FromRecord st.poller l c := by
  induction l generalizing st with
  | nil => intro c hc; exact Or.inl (by simpa [wait_sync] using hc)
  | cons pfd rest ih =>
    have lift : ∀ (q : Poller) (c : Callback), q.pair1 = st.poller.pair1 →
        q.privhash = st.poller.privhash → q.privhash_size = st.poller.privhash_size →
        FromRecord q rest c → FromRecord st.poller (pfd :: rest) c := by
      intro q c h1 h2 h3 h
      obtain ⟨e, he, hrest⟩ := FromRecord.of_eq st.poller q rest c h1 h2 h3 h
      exact ⟨e, List.mem_cons_of_mem _ he, hrest⟩
    intro c
    rcases wait_sync_cases pfd rest st with h | h | ⟨b, _, h⟩ | ⟨k, b, _, h⟩ | ⟨s, hs, h0, hp, h⟩
    · rw [h]; exact fun hc => Or.inl hc
    · rw [h]; intro hc
      exact (ih st c hc).imp id (lift st.poller c rfl rfl rfl)
    · rw [h]; exact fun hc => Or.inl hc
    · rw [h]; intro hc
      exact (ih _ c hc).imp id (lift _ c rfl rfl rfl)
    · rw [h]; intro hc
      rcases ih _ c hc with h1 | h1
      · simp only [WaitSt.called, List.mem_append, List.mem_singleton] at h1
        rcases h1 with h1 | h1
        · exact Or.inl h1
        · subst h1
          obtain ⟨rfl, -⟩ := fd2sock_some _ _ hs
          exact Or.inr ⟨pfd, List.mem_cons_self _ _, h0, rfl, hp, rfl, rfl⟩
      · exact Or.inr (lift _ c rfl rfl rfl h1)

/-! ## Lemmas on the loop of the wait call -/

/-- The loop condition changes nothing but the count of clock readings, and
a reading it reports lies before the deadline. -/
theorem wait_guard_frame (mclock : Nat → Int) (timeout time : Int) (st : WaitSt) :
    (wait_guard mclock timeout time st).2.polls = st.polls ∧
    (wait_guard mclock timeout time st).2.calls = st.calls ∧
    (wait_guard mclock timeout time st).2.poller = st.poller ∧
    (wait_guard mclock timeout time st).2.wait = st.wait ∧
    (wait_guard mclock timeout time st).2.stop = st.stop ∧
    ∀ now, (wait_guard mclock timeout time st).1 = some now →
      st.wait = 0 ∧ st.stop = false ∧
      (0 ≤ timeout → ∃ n, now = some n ∧ n < time + timeout) := by
  unfold wait_guard
  by_cases h1 : st.wait ≠ 0
  · simp [h1]
  · by_cases h2 : st.stop = true
    · simp [h1, h2]
    · have h1a : st.wait = 0 := by simpa using h1
      have h2a : st.stop = false := by simpa using h2
      by_cases h3 : timeout < 0
      · simp [h1a, h2a, h3]
      · by_cases h4 : mclock st.ticks < time + timeout
        · simp only [h1a, h2a, h3, h4]
          simp
          exact fun _ => h4
        · simp [h1a, h2a, h3, h4]

theorem wait_body_polls (timeout : Int) (now : Option Int) (r : PollRes) (st : WaitSt) :
    (wait_body timeout now r st).2.polls = st.polls ++ [⟨to_int timeout, now⟩] := by
  unfold wait_body
  split_ifs
  · rfl
  · rfl
  · rw [(wait_sync_frame _ _).1]

/-- Every call of `poll` made by the loop gets the timeout of the wait call
itself, converted to `int`, and was started by a clock reading before the
deadline. -/
theorem wait_loop_polls (mclock : Nat → Int) (timeout time : Int) (script : List PollRes)
    (st : WaitSt)
    (h : ∀ c ∈ st.polls, c.timeout = to_int timeout ∧
      (0 ≤ timeout → ∃ n, c.now = some n ∧ n < time + timeout)) :
    ∀ c ∈ (wait_loop mclock timeout time script st).st.polls, c.timeout = to_int timeout ∧
      (0 ≤ timeout → ∃ n, c.now = some n ∧ n < time + timeout) := by
  induction script generalizing st with
  | nil =>
    unfold wait_loop
    obtain ⟨hp, -, -, -, -, hnow⟩ := wait_guard_frame mclock timeout time st
    rcases hg : wait_guard mclock timeout time st with ⟨g, st1⟩
    rw [hg] at hp hnow
    simp only at hp hnow
    cases g with
    | none => rw [hp]; exact h
    | some now =>
      simp only
      split_ifs
      · rw [hp]; exact h
      · intro c hc
        simp only [List.mem_append, List.mem_singleton] at hc
        rcases hc with hc | hc
        · exact h c (hp ▸ hc)
        · subst hc
          exact ⟨rfl, (hnow now rfl).2.2⟩
  | cons r script ih =>
    unfold wait_loop
    obtain ⟨hp, -, -, -, -, hnow⟩ := wait_guard_frame mclock timeout time st
    rcases hg : wait_guard mclock timeout time st with ⟨g, st1⟩
    rw [hg] at hp hnow
    simp only at hp hnow
    cases g with
    | none => rw [hp]; exact h
    | some now =>
      simp only
      have hb := wait_body_polls timeout now r st1
      have h2 : ∀ c ∈ (wait_body timeout now r st1).2.polls, c.timeout = to_int timeout ∧
          (0 ≤ timeout → ∃ n, c.now = some n ∧ n < time + timeout) := by
        intro c hc
        rw [hb] at hc
        simp only [List.mem_append, List.mem_singleton] at hc
        rcases hc with hc | hc
        · exact h c (hp ▸ hc)
        · subst hc
          exact ⟨rfl, (hnow now rfl).2.2⟩
      split_ifs
      · rw [hp]; exact h
      · rcases hw : wait_body timeout now r st1 with ⟨v, st2⟩
        rw [hw] at h2
        cases v with
        | none => exact ih st2 h2
        | some v => exact h2

/-- One iteration from the call of `poll` on: the records get the returned
events of the report, the rest of the poller but the bytes in flight is
kept, and every new invocation of the event function is for a record of the
report. -/
theorem wait_body_spec (timeout : Int) (now : Option Int) (r : PollRes) (st : WaitSt) :
    (wait_body timeout now r st).2.poller.pfds = poll_store st.poller.pfds r.revents ∧
    (wait_body timeout now r st).2.poller.pair1 = st.poller.pair1 ∧
    (wait_body timeout now r st).2.poller.privhash = st.poller.privhash ∧
    (wait_body timeout now r st).2.poller.privhash_size = st.poller.privhash_size ∧
    ∀ c ∈ (wait_body timeout now r st).2.calls,
      c ∈ st.calls ∨ FromRecord st.poller (poll_store st.poller.pfds r.revents) c := by
  unfold wait_body
  split_ifs
  · simp only [true_and]
    exact fun c h => Or.inl h
  · simp only [true_and]
    exact fun c h => Or.inl h
  · simp only
    obtain ⟨-, -, -, h1, h2, h3, h4⟩ := wait_sync_frame (poll_store st.poller.pfds r.revents)
      { st with poller := { st.poller with pfds := poll_store st.poller.pfds r.revents },
                polls := st.polls ++ [⟨to_int timeout, now⟩] }
    refine ⟨h1, h2, h3, h4, ?_⟩
    intro c hc
    exact (wait_sync_calls _ _ c hc).imp id (FromRecord.of_eq _ _ _ c rfl rfl rfl)

/-- Every invocation of the event function made by the loop of the wait call
is for a record of one of the reports of the backend. -/
theorem wait_loop_calls (mclock : Nat → Int) (timeout time : Int) (script : List PollRes)
    (st : WaitSt) :
    ∀ c ∈ (wait_loop mclock timeout time script st).st.calls, c ∈ st.calls ∨
      ∃ r ∈ script, FromRecord st.poller (poll_store st.poller.pfds r.revents) c := by
  induction script generalizing st with
  | nil =>
    unfold wait_loop
    obtain ⟨-, hc, -, -, -, -⟩ := wait_guard_frame mclock timeout time st
    rcases hg : wait_guard mclock timeout time st with ⟨g, st1⟩
    rw [hg] at hc
    simp only at hc
    cases g with
    | none => intro c h; exact Or.inl (hc ▸ h)
    | some now =>
      simp only
      split_ifs
      · intro c h; exact Or.inl (hc ▸ h)
      · intro c h; exact Or.inl (hc ▸ h)
  | cons r script ih =>
    unfold wait_loop
    obtain ⟨-, hc, hp, -, -, -⟩ := wait_guard_frame mclock timeout time st
    rcases hg : wait_guard mclock timeout time st with ⟨g, st1⟩
    rw [hg] at hc hp
    simp only at hc hp
    cases g with
    | none => intro c h; exact Or.inl (hc ▸ h)
    | some now =>
      simp only
      split_ifs
      · intro c h; exact Or.inl (hc ▸ h)
      · obtain ⟨b1, b2, b3, b4, b5⟩ := wait_body_spec timeout now r st1
        rw [hp, hc] at b5
        rw [hp] at b1 b2 b3 b4
        rcases hw : wait_body timeout now r st1 with ⟨v, st2⟩
        rw [hw] at b1 b2 b3 b4 b5
        simp only at b1 b2 b3 b4 b5
        have first : ∀ c ∈ st2.calls, c ∈ st.calls ∨
            ∃ r1 ∈ r :: script, FromRecord st.poller (poll_store st.poller.pfds r1.revents) c :=
          fun c h => (b5 c h).imp id fun h1 => ⟨r, List.mem_cons_self _ _, h1⟩
        cases v with
        | some v => exact first
        | none =>
          intro c h
          rcases ih st2 c h with h1 | ⟨r1, hr1, h1⟩
          · exact first c h1
          · refine Or.inr ⟨r1, List.mem_cons_of_mem _ hr1, ?_⟩
            rw [b1, poll_store_store] at h1
            exact FromRecord.of_eq _ _ _ c b2 b3 b4 h1

theorem wait_guard_first (mclock : Nat → Int) (p : Poller) (timeout : Int)
    (hg : timeout < 0 ∨ mclock 1 < mclock 0 + timeout) :
    wait_guard mclock timeout (mclock 0)
        { poller := p, wait := 0, stop := false, ticks := 1, calls := [], polls := [] } =
      (some (first_now mclock timeout), WaitSt.enter p timeout) := by
  unfold wait_guard first_now WaitSt.enter
  by_cases h : timeout < 0
  · simp [h]
  · have h1 : mclock 1 < mclock 0 + timeout := hg.resolve_left h
    simp [h, h1]

/-- The first iteration of a wait call whose loop condition holds, on a
table that is not empty. -/
theorem wait_first (mclock : Nat → Int) (p : Poller) (timeout : Int) (r : PollRes)
    (script : List PollRes) (hg : timeout < 0 ∨ mclock 1 < mclock 0 + timeout)
    (hne : p.pfds ≠ []) :
    tb_poller_wait mclock p timeout (r :: script) =
      match wait_body timeout (first_now mclock timeout) r (WaitSt.enter p timeout) with
      | (some v, st) => ⟨some v, st⟩
      | (none, st) => wait_loop mclock timeout (mclock 0) script st := by
  have hl : ¬ (WaitSt.enter p timeout).poller.pfds.length = 0 := by
    simpa [WaitSt.enter] using hne
  unfold tb_poller_wait
  simp only [wait_loop, wait_guard_first mclock p timeout hg, hl, if_false]

/-- A wait call whose loop condition holds and for which the backend has no
report is blocked inside its first call of `poll`. -/
theorem wait_first_blocked (mclock : Nat → Int) (p : Poller) (timeout : Int)
    (hg : timeout < 0 ∨ mclock 1 < mclock 0 + timeout) (hne : p.pfds ≠ []) :
    tb_poller_wait mclock p timeout [] =
      ⟨none, { WaitSt.enter p timeout with polls := [⟨to_int timeout, first_now mclock timeout⟩] }⟩ := by
  have hl : ¬ (WaitSt.enter p timeout).poller.pfds.length = 0 := by
    simpa [WaitSt.enter] using hne
  unfold tb_poller_wait
  simp only [wait_loop, wait_guard_first mclock p timeout hg, hl, if_false]
  simp [WaitSt.enter]

/-- Once `stop` is set the loop ends and the call returns `wait`. -/
theorem wait_loop_stop (mclock : Nat → Int) (timeout time : Int) (script : List PollRes)
    (st : WaitSt) (h : st.stop = true) :
    wait_loop mclock timeout time script st = ⟨some st.wait, st⟩ := by
  have hg : wait_guard mclock timeout time st = (none, st) := by
    unfold wait_guard
    by_cases h1 : st.wait ≠ 0
    · simp [h1]
    · simp [h1, h]
  cases script <;> simp [wait_loop, hg]

/-- Records without returned events, all with a socket, are passed over. -/
theorem wait_sync_pass (l rest : List Pollfd) (st : WaitSt)
    (h : ∀ e ∈ l, 0 ≤ e.fd ∧ e.revents = 0) :
    wait_sync (l ++ rest) st = wait_sync rest st := by
  induction l with
  | nil => rfl
  | cons e l ih =>
    have he := h e (List.mem_cons_self _ _)
    rw [List.cons_append, wait_sync_idle e (l ++ rest) st ⟨e.fd⟩ (by simp [tb_fd2sock, he.1]) he.2]
    exact ih fun x hx => h x (List.mem_cons_of_mem _ hx)

/-- The translation of the returned events, bit by bit. -/
theorem wait_events_spec (rv : Nat) :
    (rv &&& POLLIN ≠ 0 → wait_events rv &&& TB_POLLER_EVENT_RECV ≠ 0) ∧
    (rv &&& POLLOUT ≠ 0 → wait_events rv &&& TB_POLLER_EVENT_SEND ≠ 0) ∧
    (rv &&& POLLHUP ≠ 0 → rv &&& POLLIN = 0 → rv &&& POLLOUT = 0 →
      wait_events rv = TB_POLLER_EVENT_RECV ||| TB_POLLER_EVENT_SEND) ∧
    (rv &&& POLLHUP = 0 → rv &&& POLLIN = 0 → rv &&& POLLOUT = 0 →
      wait_events rv = TB_POLLER_EVENT_NONE) := by
  unfold wait_events
  by_cases h1 : rv &&& POLLIN = 0 <;> by_cases h2 : rv &&& POLLOUT = 0 <;>
    by_cases h3 : rv &&& POLLHUP = 0 <;>
    simp [h1, h2, h3, TB_POLLER_EVENT_NONE, TB_POLLER_EVENT_RECV, TB_POLLER_EVENT_SEND]

/-! ## The wait call: claims -/

/-- The concrete poller `demo` is reached through the public operations. -/
theorem demo_reachable :
    (tb_poller_init 8 demo_env).map (fun p0 =>
      let p1 := (tb_poller_insert Env.good p0 (some ⟨5⟩) TB_POLLER_EVENT_RECV 0).2
      let p2 := (tb_poller_wait still p1 (-1) [⟨1, [POLLIN, 0]⟩]).st.poller
      (tb_poller_wait still p2 (-1) [⟨1, [POLLIN, 0]⟩]).st.poller) = some demo := by
  decide

/-- C1: the code at the failing input.  Socket 5 is reported readable by two
successive calls of `poll` inside one wait call with timeout -1; the event
function is invoked twice for socket 5 and the call goes on to a third call
of `poll`, because the loop variable `wait` is never set. -/
theorem wait_calls_back_twice :
    (tb_poller_wait still demo (-1) [⟨1, [0, POLLIN]⟩, ⟨1, [0, POLLIN]⟩]).st.calls =
      [⟨⟨5⟩, TB_POLLER_EVENT_RECV, 0⟩, ⟨⟨5⟩, TB_POLLER_EVENT_RECV, 0⟩] ∧
    (tb_poller_wait still demo (-1) [⟨1, [0, POLLIN]⟩, ⟨1, [0, POLLIN]⟩]).ret = none ∧
    (tb_poller_wait still demo (-1) [⟨1, [0, POLLIN]⟩, ⟨1, [0, POLLIN]⟩]).st.wait = 0 := by
  decide

/-- C2, refuted as stated: a received KILL, a failed `poll` and a failed read
of the wake byte all give -1, and a timeout without events gives 0 just as a
call that returns after it invoked the event function. -/
theorem wait_results_conflated :
    (tb_poller_wait still (tb_poller_kill demo) (-1) [⟨1, [POLLIN, 0]⟩]).ret = some (-1) ∧
    (tb_poller_wait still demo (-1) [⟨-1, [0, 0]⟩]).ret = some (-1) ∧
    (tb_poller_wait still demo (-1) [⟨1, [POLLIN, 0]⟩]).ret = some (-1) ∧
    (tb_poller_wait still demo 100 [⟨0, [0, 0]⟩]).ret = some 0 ∧
    (tb_poller_wait still demo 100 [⟨0, [0, 0]⟩]).st.calls = [] ∧
    (tb_poller_wait still (tb_poller_spak demo) 100 [⟨2, [POLLIN, POLLIN]⟩]).ret = some 0 ∧
    (tb_poller_wait still (tb_poller_spak demo) 100 [⟨2, [POLLIN, POLLIN]⟩]).st.calls =
      [⟨⟨5⟩, TB_POLLER_EVENT_RECV, 0⟩] := by
  decide

/-- C2, amended: on a poller whose table starts with the read end of the
pair, a wait call that enters its loop returns -1 when `poll` fails, 0 when
`poll` reports no ready descriptor (no event function is invoked), -1 when
it reads a KILL byte and -1 when the read of the wake byte fails.  So the
killed result differs from the timeout result and equals the failure
result. -/
theorem wait_result_values (mclock : Nat → Int) (p : Poller) (timeout w : Int) (ev rv : Nat)
    (rest : List Pollfd) (hpair : p.pair1 = some ⟨w⟩) (hw : 0 ≤ w)
    (htab : p.pfds = ⟨w, ev, rv⟩ :: rest)
    (hg : timeout < 0 ∨ mclock 1 < mclock 0 + timeout) :
    (∀ r script, r.cfdn < 0 → (tb_poller_wait mclock p timeout (r :: script)).ret = some (-1)) ∧
    (∀ r script, r.cfdn = 0 →
      (tb_poller_wait mclock p timeout (r :: script)).ret = some 0 ∧
      (tb_poller_wait mclock p timeout (r :: script)).st.calls = []) ∧
    (∀ c x xs script bytes, 0 < c → x &&& POLLIN ≠ 0 → p.wake = 'k' :: bytes →
      (tb_poller_wait mclock p timeout (⟨c, x :: xs⟩ :: script)).ret = some (-1)) ∧
    (∀ c x xs script, 0 < c → x &&& POLLIN ≠ 0 → p.wake = [] →
      (tb_poller_wait mclock p timeout (⟨c, x :: xs⟩ :: script)).ret = some (-1)) := by
  have hne : p.pfds ≠ [] := by simp [htab]
  have hs : tb_fd2sock w = some ⟨w⟩ := by simp [tb_fd2sock, hw]
  have hx : ∀ x : Nat, x &&& POLLIN ≠ 0 → x ≠ 0 := by
    intro x h h0
    exact h (by simp [h0])
  refine ⟨?_, ?_, ?_, ?_⟩
  · intro r script hr
    rw [wait_first mclock p timeout r script hg hne]
    simp [wait_body, hr]
  · intro r script hr
    rw [wait_first mclock p timeout r script hg hne]
    simp [wait_body, hr, WaitSt.enter]
  · intro c x xs script bytes hc hin hk
    rw [wait_first mclock p timeout _ script hg hne]
    have h1 : ¬ c < 0 := by omega
    have h2 : ¬ c = 0 := by omega
    simp only [wait_body, h1, h2, if_false, WaitSt.enter, htab, poll_store]
    rw [wait_sync_wake_kill _ _ _ ⟨w⟩ bytes hs (hx x hin) hpair.symm hin hk]
  · intro c x xs script hc hin hk
    rw [wait_first mclock p timeout _ script hg hne]
    have h1 : ¬ c < 0 := by omega
    have h2 : ¬ c = 0 := by omega
    simp only [wait_body, h1, h2, if_false, WaitSt.enter, htab, poll_store]
    rw [wait_sync_wake_fail _ _ _ ⟨w⟩ hs (hx x hin) hpair.symm hin hk]

/-- C2, amended, at a concrete input: a received KILL on `demo`. -/
theorem wait_result_values_witness :
    (tb_poller_wait still (tb_poller_kill demo) (-1) [⟨1, [POLLIN, 0]⟩]).ret = some (-1) :=
  (wait_result_values still (tb_poller_kill demo) (-1) 4 POLLIN POLLIN [⟨5, POLLIN, 0⟩]
    (by decide) (by decide) (by decide) (by decide)).2.2.1 1 POLLIN [0] [] []
    (by decide) (by decide) (by decide)

/-- C3: the code at the failing input.  `tb_poller_clear` on a freshly
initialised poller leaves the table empty: the record of the read end of the
pair is removed with the others, and the next wait call returns -1 from its
check of the table size, before any call of `poll`. -/
theorem clear_removes_wake_record :
    (tb_poller_init 8 demo_env).map (fun p => p.pfds) = some [⟨4, POLLIN, 0⟩] ∧
    (tb_poller_init 8 demo_env).map (fun p => (tb_poller_clear p).pfds) = some [] ∧
    (tb_poller_init 8 demo_env).map
      (fun p => (tb_poller_wait still (tb_poller_clear p) (-1) [⟨1, [POLLIN]⟩]).ret) =
        some (some (-1)) ∧
    (tb_poller_init 8 demo_env).map
      (fun p => (tb_poller_wait still (tb_poller_clear p) (-1) [⟨1, [POLLIN]⟩]).st.polls) =
        some [] := by
  decide

/-- C4, refuted as stated: after a wait call on `demo` consumed the KILL byte
and returned -1, a later wait call with timeout -1 and no byte in flight
enters `poll` and is blocked there, and one with timeout 100 for which
`poll` reports nothing returns 0, not -1. -/
theorem wait_after_kill_polls :
    (tb_poller_wait still (tb_poller_kill demo) (-1) [⟨1, [POLLIN, 0]⟩]).ret = some (-1) ∧
    (tb_poller_wait still (tb_poller_kill demo) (-1) [⟨1, [POLLIN, 0]⟩]).st.poller.wake = [] ∧
    (tb_poller_wait still
      (tb_poller_wait still (tb_poller_kill demo) (-1) [⟨1, [POLLIN, 0]⟩]).st.poller
      (-1) []).ret = none ∧
    (tb_poller_wait still
      (tb_poller_wait still (tb_poller_kill demo) (-1) [⟨1, [POLLIN, 0]⟩]).st.poller
      (-1) []).st.polls = [⟨-1, none⟩] ∧
    (tb_poller_wait still
      (tb_poller_wait still (tb_poller_kill demo) (-1) [⟨1, [POLLIN, 0]⟩]).st.poller
      100 [⟨0, [0, 0]⟩]).ret = some 0 := by
  decide

/-- C4, amended: the poller records no killed state.  A wait call that reads
the only byte in flight, a KILL, returns -1 and leaves the poller as it was
but for the byte read and the returned events stored by `poll`.  A later
wait call that enters its loop calls `poll` like any other: it returns 0
when `poll` reports no ready descriptor, and it is blocked inside `poll`
when the backend has nothing to report. -/
theorem wait_keeps_no_killed_state (mclock : Nat → Int) (p : Poller) (timeout w c : Int)
    (ev rv x : Nat) (xs : List Nat) (rest : List Pollfd) (script : List PollRes)
    (hpair : p.pair1 = some ⟨w⟩) (hw : 0 ≤ w) (htab : p.pfds = ⟨w, ev, rv⟩ :: rest)
    (hk : p.wake = ['k']) (hg : timeout < 0 ∨ mclock 1 < mclock 0 + timeout)
    (hc : 0 < c) (hx : x &&& POLLIN ≠ 0) :
    (tb_poller_wait mclock p timeout (⟨c, x :: xs⟩ :: script)).ret = some (-1) ∧
    (tb_poller_wait mclock p timeout (⟨c, x :: xs⟩ :: script)).st.poller =
      { p with pfds := poll_store p.pfds (x :: xs), wake := [] } ∧
    (∀ (mclock2 : Nat → Int) (timeout2 : Int) (r2 : PollRes) (script2 : List PollRes),
      (timeout2 < 0 ∨ mclock2 1 < mclock2 0 + timeout2) → r2.cfdn = 0 →
      (tb_poller_wait mclock2
        (tb_poller_wait mclock p timeout (⟨c, x :: xs⟩ :: script)).st.poller timeout2
        (r2 :: script2)).ret = some 0 ∧
      (tb_poller_wait mclock2
        (tb_poller_wait mclock p timeout (⟨c, x :: xs⟩ :: script)).st.poller timeout2
        (r2 :: script2)).st.polls = [⟨to_int timeout2, first_now mclock2 timeout2⟩]) ∧
    (∀ (mclock2 : Nat → Int) (timeout2 : Int),
      (timeout2 < 0 ∨ mclock2 1 < mclock2 0 + timeout2) →
      (tb_poller_wait mclock2
        (tb_poller_wait mclock p timeout (⟨c, x :: xs⟩ :: script)).st.poller timeout2
        []).ret = none ∧
      (tb_poller_wait mclock2
        (tb_poller_wait mclock p timeout (⟨c, x :: xs⟩ :: script)).st.poller timeout2
        []).st.polls = [⟨to_int timeout2, first_now mclock2 timeout2⟩]) := by
  have hne : p.pfds ≠ [] := by simp [htab]
  have hs : tb_fd2sock w = some ⟨w⟩ := by simp [tb_fd2sock, hw]
  have hx0 : x ≠ 0 := fun h0 => hx (by simp [h0])
  have h1 : ¬ c < 0 := by omega
  have h2 : ¬ c = 0 := by omega
  have ho : tb_poller_wait mclock p timeout (⟨c, x :: xs⟩ :: script) =
      ⟨some (-1), WaitSt.recvd
        { WaitSt.enter p timeout with
            poller := { p with pfds := poll_store p.pfds (x :: xs) },
            polls := [⟨to_int timeout, first_now mclock timeout⟩] } []⟩ := by
    rw [wait_first mclock p timeout _ script hg hne]
    simp only [wait_body, h1, h2, if_false, WaitSt.enter, htab, poll_store]
    rw [wait_sync_wake_kill _ _ _ ⟨w⟩ [] hs hx0 hpair.symm hx hk]
    rfl
  rw [ho]
  have hne2 : ({ p with pfds := poll_store p.pfds (x :: xs), wake := [] } : Poller).pfds ≠ [] := by
    simp [htab, poll_store]
  refine ⟨rfl, rfl, ?_, ?_⟩
  · intro mclock2 timeout2 r2 script2 hg2 hr2
    simp only [WaitSt.recvd]
    rw [wait_first mclock2 _ timeout2 r2 script2 hg2 hne2]
    simp [wait_body, hr2, WaitSt.enter]
  · intro mclock2 timeout2 hg2
    simp only [WaitSt.recvd]
    rw [wait_first_blocked mclock2 _ timeout2 hg2 hne2]
    exact ⟨rfl, rfl⟩

/-- C4, amended, at a concrete input: the killed wait call on `demo`. -/
theorem wait_keeps_no_killed_state_witness :
    (tb_poller_wait still (tb_poller_kill demo) (-1) [⟨1, [POLLIN, 0]⟩]).st.poller =
      { tb_poller_kill demo with
          pfds := poll_store (tb_poller_kill demo).pfds [POLLIN, 0], wake := [] } :=
  (wait_keeps_no_killed_state still (tb_poller_kill demo) (-1) 4 1 POLLIN POLLIN POLLIN [0]
    [⟨5, POLLIN, 0⟩] [] (by decide) (by decide) (by decide) (by decide) (by decide)
    (by decide) (by decide)).2.1

/-- C6: when the loop of a wait call is entered, `poll` reports only the read
end of the pair as readable and the oldest byte in flight is POKE, the call
reads exactly that byte, invokes the event function zero times, calls
`poll` once and returns 0, which is not the killed result -1. -/
theorem wait_poke_only (mclock : Nat → Int) (p : Poller) (timeout w : Int) (r : PollRes)
    (script : List PollRes) (ev x : Nat) (pre post : List Pollfd) (bytes : List Char)
    (hpair : p.pair1 = some ⟨w⟩) (hw : 0 ≤ w)
    (hg : timeout < 0 ∨ mclock 1 < mclock 0 + timeout) (hc : 0 < r.cfdn)
    (hstore : poll_store p.pfds r.revents = pre ++ ⟨w, ev, x⟩ :: post)
    (hidle : ∀ e ∈ pre ++ post, 0 ≤ e.fd ∧ e.revents = 0)
    (hx : x &&& POLLIN ≠ 0) (hwake : p.wake = 'p' :: bytes) :
    (tb_poller_wait mclock p timeout (r :: script)).ret = some 0 ∧
    (tb_poller_wait mclock p timeout (r :: script)).ret ≠ some (-1) ∧
    (tb_poller_wait mclock p timeout (r :: script)).st.calls = [] ∧
    (tb_poller_wait mclock p timeout (r :: script)).st.poller.wake = bytes ∧
    (tb_poller_wait mclock p timeout (r :: script)).st.polls.length = 1 := by
  have hne : p.pfds ≠ [] := by
    intro h0
    have := congrArg List.length hstore
    rw [length_poll_store, h0] at this
    simp only [List.length_nil, List.length_append, List.length_cons] at this
    omega
  have hs : tb_fd2sock w = some ⟨w⟩ := by simp [tb_fd2sock, hw]
  have hx0 : x ≠ 0 := fun h0 => hx (by simp [h0])
  have h1 : ¬ r.cfdn < 0 := by omega
  have h2 : ¬ r.cfdn = 0 := by omega
  have hpre : ∀ e ∈ pre, 0 ≤ e.fd ∧ e.revents = 0 :=
    fun e he => hidle e (List.mem_append_left _ he)
  have hpost : ∀ e ∈ post, 0 ≤ e.fd ∧ e.revents = 0 :=
    fun e he => hidle e (List.mem_append_right _ he)
  have ho : tb_poller_wait mclock p timeout (r :: script) =
      ⟨some 0, { WaitSt.recvd
        { WaitSt.enter p timeout with
            poller := { p with pfds := poll_store p.pfds r.revents },
            polls := [⟨to_int timeout, first_now mclock timeout⟩] } bytes with stop := true }⟩ := by
    rw [wait_first mclock p timeout r script hg hne]
    simp only [wait_body, h1, h2, if_false, WaitSt.enter]
    rw [hstore, wait_sync_pass pre _ _ hpre,
      wait_sync_wake_poke _ _ _ ⟨w⟩ 'p' bytes hs hx0 hpair.symm hx hwake (by decide)]
    have hp2 := wait_sync_pass post [] { WaitSt.recvd
        { poller := { p with pfds := pre ++ ⟨w, ev, x⟩ :: post }, wait := 0,
          stop := false, ticks := if timeout < 0 then 1 else 2, calls := [],
          polls := [] ++ [⟨to_int timeout, first_now mclock timeout⟩] } bytes with stop := true } hpost
    rw [List.append_nil] at hp2
    rw [hp2]
    simp only [wait_sync]
    rw [wait_loop_stop _ _ _ _ _ rfl]
    rfl
  rw [ho]
  exact ⟨rfl, by simp, rfl, rfl, rfl⟩

/-- C6, at a concrete input: a POKE on `demo` with timeout -1. -/
theorem wait_poke_only_witness :
    (tb_poller_wait still (tb_poller_spak demo) (-1) [⟨1, [POLLIN, 0]⟩]).ret = some 0 :=
  (wait_poke_only still (tb_poller_spak demo) (-1) 4 ⟨1, [POLLIN, 0]⟩ [] POLLIN POLLIN []
    [⟨5, POLLIN, 0⟩] [] (by decide) (by decide) (by decide) (by decide) (by decide)
    (by decide) (by decide) (by decide)).1

/-- C7, refuted as stated: `poll` reports POLLERR alone for socket 5 and the
event function is invoked with the empty event set. -/
theorem wait_pollerr_empty_events :
    (tb_poller_wait still demo (-1) [⟨1, [0, POLLERR]⟩]).st.calls =
      [⟨⟨5⟩, TB_POLLER_EVENT_NONE, 0⟩] ∧
    wait_events POLLERR = TB_POLLER_EVENT_NONE := by
  decide

/-- C7, amended: every invocation of the event function made by a wait call
is for a record that one of the reports of `poll` gave returned events, not
the read end of the pair, and the events passed contain READABLE if POLLIN
is returned and WRITABLE if POLLOUT is returned; they are both READABLE and
WRITABLE when POLLHUP is returned with neither POLLIN nor POLLOUT; and they
are the empty set when none of POLLIN, POLLOUT and POLLHUP is returned (as
for POLLERR alone). -/
theorem wait_callback_events (mclock : Nat → Int) (p : Poller) (timeout : Int)
    (script : List PollRes) (c : Callback)
    (hc : c ∈ (tb_poller_wait mclock p timeout script).st.calls) :
    ∃ r ∈ script, ∃ e ∈ poll_store p.pfds r.revents,
      e.revents ≠ 0 ∧ c.sock = ⟨e.fd⟩ ∧ some c.sock ≠ p.pair1 ∧
      (e.revents &&& POLLIN ≠ 0 → c.events &&& TB_POLLER_EVENT_RECV ≠ 0) ∧
      (e.revents &&& POLLOUT ≠ 0 → c.events &&& TB_POLLER_EVENT_SEND ≠ 0) ∧
      (e.revents &&& POLLHUP ≠ 0 → e.revents &&& POLLIN = 0 → e.revents &&& POLLOUT = 0 →
        c.events = TB_POLLER_EVENT_RECV ||| TB_POLLER_EVENT_SEND) ∧
      (e.revents &&& POLLHUP = 0 → e.revents &&& POLLIN = 0 → e.revents &&& POLLOUT = 0 →
        c.events = TB_POLLER_EVENT_NONE) := by
  unfold tb_poller_wait at hc
  rcases wait_loop_calls mclock timeout (mclock 0) script _ c hc with h | ⟨r, hr, h⟩
  · simp at h
  · obtain ⟨e, he, h0, hs, hp, hev, -⟩ := h
    obtain ⟨s1, s2, s3, s4⟩ := wait_events_spec e.revents
    exact ⟨r, hr, e, he, h0, hs, hp, hev ▸ s1, hev ▸ s2, hev ▸ s3, hev ▸ s4⟩

/-- C7, amended, at a concrete input: a hang-up alone on socket 5 of `demo`
is passed on as READABLE and WRITABLE. -/
theorem wait_callback_events_witness :
    ∃ r ∈ [(⟨1, [0, POLLHUP]⟩ : PollRes)], ∃ e ∈ poll_store demo.pfds r.revents,
      e.revents ≠ 0 ∧ (⟨⟨5⟩, 3, 0⟩ : Callback).sock = ⟨e.fd⟩ ∧
      some (⟨⟨5⟩, 3, 0⟩ : Callback).sock ≠ demo.pair1 ∧
      (e.revents &&& POLLIN ≠ 0 → (⟨⟨5⟩, 3, 0⟩ : Callback).events &&& TB_POLLER_EVENT_RECV ≠ 0) ∧
      (e.revents &&& POLLOUT ≠ 0 → (⟨⟨5⟩, 3, 0⟩ : Callback).events &&& TB_POLLER_EVENT_SEND ≠ 0) ∧
      (e.revents &&& POLLHUP ≠ 0 → e.revents &&& POLLIN = 0 → e.revents &&& POLLOUT = 0 →
        (⟨⟨5⟩, 3, 0⟩ : Callback).events = TB_POLLER_EVENT_RECV ||| TB_POLLER_EVENT_SEND) ∧
      (e.revents &&& POLLHUP = 0 → e.revents &&& POLLIN = 0 → e.revents &&& POLLOUT = 0 →
        (⟨⟨5⟩, 3, 0⟩ : Callback).events = TB_POLLER_EVENT_NONE) :=
  wait_callback_events still demo (-1) [⟨1, [0, POLLHUP]⟩] ⟨⟨5⟩, 3, 0⟩ (by decide)

/-- C8, refuted as stated: socket 5 of `demo` is ready, as the report the
backend holds shows, but the wait call with timeout 0 returns 0 without a
call of `poll` and without invoking the event function. -/
theorem wait_zero_timeout_no_poll :
    (tb_poller_wait still demo 0 [⟨1, [0, POLLIN]⟩]).ret = some 0 ∧
    (tb_poller_wait still demo 0 [⟨1, [0, POLLIN]⟩]).st.polls = [] ∧
    (tb_poller_wait still demo 0 [⟨1, [0, POLLIN]⟩]).st.calls = [] := by
  decide

/-- C8, amended: with a clock that does not go backwards, a wait call with
timeout 0 does not enter its loop: it returns 0 at once, without a call of
`poll`, without invoking the event function and without reading a byte,
whatever is ready. -/
theorem wait_zero_timeout (mclock : Nat → Int) (p : Poller) (script : List PollRes)
    (hmono : mclock 0 ≤ mclock 1) :
    tb_poller_wait mclock p 0 script =
      ⟨some 0, { poller := p, wait := 0, stop := false, ticks := 2, calls := [], polls := [] }⟩ := by
  have hn : ¬ mclock 1 < mclock 0 + 0 := by omega
  have hg : wait_guard mclock 0 (mclock 0)
      { poller := p, wait := 0, stop := false, ticks := 1, calls := [], polls := [] } =
      (none, { poller := p, wait := 0, stop := false, ticks := 2, calls := [], polls := [] }) := by
    simp only [wait_guard, ne_eq, not_true_eq_false, if_false, Bool.false_eq_true,
      lt_irrefl, hn]
  unfold tb_poller_wait
  cases script <;> simp [wait_loop, hg]

/-- C8, amended, at a concrete input: `demo` with socket 5 ready. -/
theorem wait_zero_timeout_witness :
    tb_poller_wait still demo 0 [⟨1, [0, POLLIN]⟩] =
      ⟨some 0, { poller := demo, wait := 0, stop := false, ticks := 2, calls := [],
                 polls := [] }⟩ :=
  wait_zero_timeout still demo [⟨1, [0, POLLIN]⟩] (by decide)

/-- C9, refuted as stated: with timeout 100, a first call of `poll` that
returns after 60 ms with socket 5 ready is followed by a second call of
`poll` that is again handed 100, more than the 40 ms left; the two budgets
add up to 200. -/
theorem wait_budget_not_decremented :
    (tb_poller_wait late demo 100 [⟨1, [0, POLLIN]⟩, ⟨0, [0, 0]⟩]).st.polls =
      [⟨100, some 0⟩, ⟨100, some 60⟩] ∧
    ¬ ((100 : Int) ≤ 100 - (late 2 - late 0)) ∧
    ((tb_poller_wait late demo 100 [⟨1, [0, POLLIN]⟩, ⟨0, [0, 0]⟩]).st.polls.map
      PollCall.timeout).sum = 200 := by
  decide

/-- A timeout above the range of `int` arrives truncated in `poll`:
2^32 + 100 is handed over as 100. -/
theorem wait_poll_timeout_truncated :
    (tb_poller_wait still demo 4294967396 [⟨0, [0, 0]⟩]).st.polls = [⟨100, some 0⟩] := by
  decide

/-- C9, amended: the budget is not decremented.  Every call of `poll` made
by a wait call is handed the same value, the timeout of the wait call
itself converted to `int`, which is that timeout whenever it fits an `int`.
For a timeout that is not negative and a deadline that fits 64 bits, an
iteration only starts on a clock reading strictly before the start of the
call plus the timeout. -/
theorem wait_poll_timeouts (mclock : Nat → Int) (p : Poller) (timeout : Int)
    (script : List PollRes) (c : PollCall)
    (hc : c ∈ (tb_poller_wait mclock p timeout script).st.polls) :
    c.timeout = to_int timeout ∧
    (-2147483648 ≤ timeout → timeout ≤ 2147483647 → c.timeout = timeout) ∧
    (0 ≤ timeout → mclock 0 + timeout < 9223372036854775808 →
      ∃ n, c.now = some n ∧ n < mclock 0 + timeout) := by
  unfold tb_poller_wait at hc
  obtain ⟨h1, h2⟩ := wait_loop_polls mclock timeout (mclock 0) script _ (by simp) c hc
  refine ⟨h1, ?_, fun h0 _ => h2 h0⟩
  intro hlo hhi
  rw [h1]
  unfold to_int
  omega

/-- C9, amended, at a concrete input: the second call of `poll` above. -/
theorem wait_poll_timeouts_witness :
    (⟨100, some 60⟩ : PollCall).timeout = to_int 100 ∧
    ((-2147483648 : Int) ≤ 100 → (100 : Int) ≤ 2147483647 →
      (⟨100, some 60⟩ : PollCall).timeout = 100) ∧
    ((0 : Int) ≤ 100 → late 0 + 100 < 9223372036854775808 →
      ∃ n, (⟨100, some 60⟩ : PollCall).now = some n ∧ n < late 0 + 100) :=
  wait_poll_timeouts late demo 100 [⟨1, [0, POLLIN]⟩, ⟨0, [0, 0]⟩] ⟨100, some 60⟩ (by decide)

/-! ## The private-data index: claims -/

/-- C10: for a well-formed index, a descriptor `d` with `0 < d < 2^31-1`, a
non-null value `v` and a succeeding allocator, after
`tb_poller_privhash_set(d, v)` the value read for `d` is `v`; every other
descriptor within the old capacity reads as before; every slot added by the
growth other than `d` holds null and reads as null; and for `d1 < d` a value
stored for `d1` just before is still read for `d1` afterwards. -/
theorem privhash_set_get_frame (env env1 : Env) (p : Poller) (d : Int) (v : Nat)
    (hwf : index_wf p = true) (hd0 : 0 < d) (_hd1 : d < TB_MAXS32) (hv : v ≠ 0)
    (hok : env.alloc_ok = true) (hok1 : env1.alloc_ok = true) :
    tb_poller_privhash_get (tb_poller_privhash_set env p ⟨d⟩ v) ⟨d⟩ = v ∧
    (∀ d2 : Int, 0 ≤ d2 → d2 ≠ d → d2 < (p.privhash_size : Int) →
      tb_poller_privhash_get (tb_poller_privhash_set env p ⟨d⟩ v) ⟨d2⟩ =
        tb_poller_privhash_get p ⟨d2⟩) ∧
    (∀ d2 : Int, d2 ≠ d → (p.privhash_size : Int) ≤ d2 →
      d2 < ((tb_poller_privhash_set env p ⟨d⟩ v).privhash_size : Int) →
      ((tb_poller_privhash_set env p ⟨d⟩ v).privhash.getD []).getD d2.toNat 0 = 0 ∧
      tb_poller_privhash_get (tb_poller_privhash_set env p ⟨d⟩ v) ⟨d2⟩ = 0) ∧
    (∀ (d1 : Int) (v1 : Nat), 0 < d1 → d1 < d → v1 ≠ 0 →
      tb_poller_privhash_get
        (tb_poller_privhash_set env (tb_poller_privhash_set env1 p ⟨d1⟩ v1) ⟨d⟩ v) ⟨d1⟩ = v1) := by
  have key : ∀ (e : Env) (q : Poller) (c : Int) (w : Nat), index_wf q = true → 0 < c → w ≠ 0 →
      e.alloc_ok = true → ∀ d2 : Int, 0 ≤ d2 →
      tb_poller_privhash_get (tb_poller_privhash_set e q ⟨c⟩ w) ⟨d2⟩ =
        if d2 = c then w else tb_poller_privhash_get q ⟨d2⟩ := by
    intro e q c w hq hc hw he d2 h0
    obtain ⟨mem, hm, _, hsz, hget⟩ := privhash_set_spec e q c w hq hc hw he
    obtain ⟨n, rfl⟩ := Int.eq_ofNat_of_zero_le h0
    obtain ⟨m, rfl⟩ := Int.eq_ofNat_of_zero_le hc.le
    simp only [Int.toNat_ofNat] at hsz hget
    rw [privhash_get_eq _ _ (Int.ofNat_nonneg n), privhash_get_eq _ _ (Int.ofNat_nonneg n), hm,
      hsz, Option.getD_some]
    simp only [Int.toNat_ofNat, Nat.cast_lt, Nat.cast_inj, hget]
    by_cases h1 : n = m
    · subst h1
      simp
    · simp only [h1, if_false]
      by_cases h2 : n < q.privhash_size
      · simp [h2]
      · simp [h2]
  refine ⟨?_, ?_, ?_, ?_⟩
  · rw [key env p d v hwf hd0 hv hok d hd0.le, if_pos rfl]
  · intro d2 h0 hne _
    rw [key env p d v hwf hd0 hv hok d2 h0, if_neg hne]
  · intro d2 hne hlo hhi
    obtain ⟨mem, hm, _, _, hget⟩ := privhash_set_spec env p d v hwf hd0 hv hok
    have h0 : 0 ≤ d2 := by omega
    have hslot : mem.getD d2.toNat 0 = 0 := by
      rw [hget, if_neg (by omega), if_neg (by omega)]
    refine ⟨by rw [hm, Option.getD_some, hslot], ?_⟩
    rw [privhash_get_eq _ _ h0, hm, Option.getD_some, hslot]
    simp
  · intro d1 v1 h1 hlt hv1
    have hwf1 := privhash_set_wf env1 p d1 v1 hwf h1 hv1 hok1
    rw [key env _ d v hwf1 hd0 hv hok d1 h1.le, if_neg (by omega),
      key env1 p d1 v1 hwf h1 hv1 hok1 d1 h1.le, if_pos rfl]

/-- C10, at a concrete input: an index of capacity 6 holding 42 for
descriptor 5 is grown by a store for descriptor 7. -/
theorem privhash_set_get_frame_witness :
    tb_poller_privhash_get
      (tb_poller_privhash_set Env.good
        ⟨some ⟨3⟩, some ⟨4⟩, [⟨4, 1, 0⟩], some [0, 0, 0, 0, 0, 42], 6, []⟩ ⟨7⟩ 43) ⟨5⟩ = 42 :=
  ((privhash_set_get_frame Env.good Env.good
      ⟨some ⟨3⟩, some ⟨4⟩, [⟨4, 1, 0⟩], some [0, 0, 0, 0, 0, 42], 6, []⟩ 7 43
      (by decide) (by decide) (by decide) (by decide) (by decide) (by decide)).2.1
    5 (by decide) (by decide) (by decide)).trans (by decide)

/-! ## Lemmas on insert, remove and modify -/

theorem privhash_set_zero (env : Env) (p : Poller) (sock : Sock) :
    tb_poller_privhash_set env p sock 0 = p := by
  simp [tb_poller_privhash_set]

/-- The flag returned and the fields of the poller after an insert. -/
theorem insert_fields (env : Env) (p : Poller) (sock : Sock) (events priv : Nat) :
    (tb_poller_insert env p (some sock) events priv).1 = true ∧
    (tb_poller_insert env p (some sock) events priv).2.pfds =
      tb_vector_insert_tail env p.pfds ⟨tb_sock2fd sock, insert_events events, 0⟩ ∧
    (tb_poller_insert env p (some sock) events priv).2.privhash =
      (tb_poller_privhash_set env p sock priv).privhash ∧
    (tb_poller_insert env p (some sock) events priv).2.privhash_size =
      (tb_poller_privhash_set env p sock priv).privhash_size ∧
    (tb_poller_insert env p (some sock) events priv).2.pair1 = p.pair1 := by
  unfold tb_poller_insert tb_poller_privhash_set
  simp only
  split_ifs <;> (try split) <;> (try split) <;> simp

/-- The flag returned and the fields of the poller after a modify. -/
theorem modify_fields (env : Env) (p : Poller) (sock : Sock) (events priv : Nat) :
    (tb_poller_modify env p (some sock) events priv).1 = true ∧
    (tb_poller_modify env p (some sock) events priv).2.pfds =
      tb_walk_all (fun item => tb_poller_walk_modify item (tb_sock2fd sock, events)) p.pfds ∧
    (tb_poller_modify env p (some sock) events priv).2.privhash =
      (tb_poller_privhash_set env p sock priv).privhash ∧
    (tb_poller_modify env p (some sock) events priv).2.privhash_size =
      (tb_poller_privhash_set env p sock priv).privhash_size ∧
    (tb_poller_modify env p (some sock) events priv).2.pair1 = p.pair1 := by
  unfold tb_poller_modify tb_poller_privhash_set
  simp only
  split_ifs <;> (try split) <;> (try split) <;> simp

/-- The flag returned and the fields of the poller after a remove. -/
theorem remove_fields (p : Poller) (sock : Sock) :
    (tb_poller_remove p (some sock)).1 = true ∧
    (tb_poller_remove p (some sock)).2.pfds =
      tb_remove_first_if (fun item => tb_poller_walk_remove item (tb_sock2fd sock)) p.pfds ∧
    (tb_poller_remove p (some sock)).2.privhash = (tb_poller_privhash_del p sock).privhash ∧
    (tb_poller_remove p (some sock)).2.privhash_size = p.privhash_size ∧
    (tb_poller_remove p (some sock)).2.pair1 = p.pair1 := by
  unfold tb_poller_remove tb_poller_privhash_del
  simp only
  split_ifs <;> simp

/-- Reading depends on the array and its size only. -/
theorem privhash_get_congr (p q : Poller) (sock : Sock) (h1 : q.privhash = p.privhash)
    (h2 : q.privhash_size = p.privhash_size) :
    tb_poller_privhash_get q sock = tb_poller_privhash_get p sock := by
  unfold tb_poller_privhash_get
  rw [h1, h2]

theorem remove_first_if_absent (pred : Pollfd → Bool) (l : List Pollfd)
    (h : ∀ e ∈ l, pred e = false) : tb_remove_first_if pred l = l := by
  induction l with
  | nil => rfl
  | cons x xs ih =>
    simp only [tb_remove_first_if, h x (List.mem_cons_self _ _), Bool.false_eq_true, if_false]
    rw [ih fun e he => h e (List.mem_cons_of_mem _ he)]

theorem remove_first_if_split (pred : Pollfd → Bool) (pre post : List Pollfd) (e : Pollfd)
    (hpre : ∀ x ∈ pre, pred x = false) (he : pred e = true) :
    tb_remove_first_if pred (pre ++ e :: post) = pre ++ post := by
  induction pre with
  | nil => simp [tb_remove_first_if, he]
  | cons x xs ih =>
    rw [List.cons_append, tb_remove_first_if, if_neg (by simp [hpre x (List.mem_cons_self _ _)]),
      ih fun y hy => hpre y (List.mem_cons_of_mem _ hy), List.cons_append]

/-- A list with a record for which the predicate holds splits at the first
such record. -/
theorem first_split (pred : Pollfd → Bool) (l : List Pollfd) (h : ∃ e ∈ l, pred e = true) :
    ∃ pre e post, l = pre ++ e :: post ∧ pred e = true ∧ ∀ x ∈ pre, pred x = false := by
  induction l with
  | nil => obtain ⟨e, he, -⟩ := h; cases he
  | cons x xs ih =>
    by_cases hx : pred x = true
    · exact ⟨[], x, xs, rfl, hx, fun y hy => by cases hy⟩
    · have hx0 : pred x = false := by simpa using hx
      obtain ⟨e, he, hp⟩ := h
      have he2 : e ∈ xs := by
        rcases List.mem_cons.mp he with h1 | h1
        · subst h1; exact absurd hp hx
        · exact h1
      obtain ⟨pre, e1, post, h1, h2, h3⟩ := ih ⟨e, he2, hp⟩
      refine ⟨x :: pre, e1, post, by rw [h1]; rfl, h2, ?_⟩
      intro y hy
      rcases List.mem_cons.mp hy with h4 | h4
      · subst h4; exact hx0
      · exact h3 y h4

/-- The walk function of modify writes the interest that insert computes. -/
theorem walk_modify_eq (item : Pollfd) (fd : Int) (events : Nat) :
    tb_poller_walk_modify item (fd, events) =
      if item.fd = fd then (false, { item with events := insert_events events })
      else (true, item) := by
  rfl

theorem walk_all_go (func : Pollfd → Bool × Pollfd) (x y : Pollfd) (xs : List Pollfd)
    (h : func x = (true, y)) : tb_walk_all func (x :: xs) = y :: tb_walk_all func xs := by
  simp [tb_walk_all, h]

theorem walk_all_end (func : Pollfd → Bool × Pollfd) (x y : Pollfd) (xs : List Pollfd)
    (h : func x = (false, y)) : tb_walk_all func (x :: xs) = y :: xs := by
  simp [tb_walk_all, h]

theorem walk_all_absent (fd : Int) (events : Nat) (l : List Pollfd)
    (h : ∀ e ∈ l, e.fd ≠ fd) :
    tb_walk_all (fun item => tb_poller_walk_modify item (fd, events)) l = l := by
  induction l with
  | nil => rfl
  | cons x xs ih =>
    rw [walk_all_go _ x x xs (by simp [walk_modify_eq, h x (List.mem_cons_self _ _)]),
      ih fun e he => h e (List.mem_cons_of_mem _ he)]

theorem walk_all_split (fd : Int) (events : Nat) (pre post : List Pollfd) (e : Pollfd)
    (hpre : ∀ x ∈ pre, x.fd ≠ fd) (he : e.fd = fd) :
    tb_walk_all (fun item => tb_poller_walk_modify item (fd, events)) (pre ++ e :: post) =
      pre ++ { e with events := insert_events events } :: post := by
  induction pre with
  | nil =>
    rw [List.nil_append, walk_all_end _ e { e with events := insert_events events } post
      (by simp [walk_modify_eq, he])]
    rfl
  | cons x xs ih =>
    rw [List.cons_append,
      walk_all_go _ x x _ (by simp [walk_modify_eq, hpre x (List.mem_cons_self _ _)]),
      ih fun y hy => hpre y (List.mem_cons_of_mem _ hy), List.cons_append]

/-- The walk of modify keeps the descriptors of the records, in order. -/
theorem walk_all_fds (fd : Int) (events : Nat) (l : List Pollfd) :
    (tb_walk_all (fun item => tb_poller_walk_modify item (fd, events)) l).map Pollfd.fd =
      l.map Pollfd.fd := by
  induction l with
  | nil => rfl
  | cons x xs ih =>
    by_cases hx : x.fd = fd
    · rw [walk_all_end _ x { x with events := insert_events events } xs
        (by simp [walk_modify_eq, hx])]
      rfl
    · rw [walk_all_go _ x x xs (by simp [walk_modify_eq, hx]), List.map_cons, ih, List.map_cons]

theorem privhash_del_size (p : Poller) (sock : Sock) :
    (tb_poller_privhash_del p sock).privhash_size = p.privhash_size := by
  unfold tb_poller_privhash_del
  simp only
  split_ifs <;> rfl

theorem privhash_del_get_same (p : Poller) (sock : Sock) :
    tb_poller_privhash_get (tb_poller_privhash_del p sock) sock = 0 := by
  unfold tb_poller_privhash_get tb_poller_privhash_del
  simp only
  by_cases h : 0 ≤ tb_sock2fd sock ∧ tb_sock2fd sock < (p.privhash_size : Int)
  · simp only [h, and_self, if_true]
    cases hp : p.privhash with
    | none => rfl
    | some mem =>
      simp only [Option.map_some']
      simp only [List.getD_eq_getElem?_getD, List.getElem?_set]
      split_ifs <;> simp
  · simp only [h, if_false]

theorem privhash_del_get_other (p : Poller) (sock s2 : Sock) (hne : s2 ≠ sock) :
    tb_poller_privhash_get (tb_poller_privhash_del p sock) s2 = tb_poller_privhash_get p s2 := by
  have hfd : tb_sock2fd s2 ≠ tb_sock2fd sock := by
    intro h
    apply hne
    cases s2; cases sock
    simpa [tb_sock2fd] using h
  unfold tb_poller_privhash_get tb_poller_privhash_del
  simp only
  by_cases h : 0 ≤ tb_sock2fd sock ∧ tb_sock2fd sock < (p.privhash_size : Int)
  · simp only [h, and_self, if_true]
    by_cases h2 : 0 ≤ tb_sock2fd s2 ∧ tb_sock2fd s2 < (p.privhash_size : Int)
    · simp only [h2, and_self, if_true]
      cases hp : p.privhash with
      | none => rfl
      | some mem =>
        have hn : (tb_sock2fd sock).toNat ≠ (tb_sock2fd s2).toNat := by omega
        simp [List.getD_eq_getElem?_getD, List.getElem?_set, hn]
    · simp only [h2, if_false]
  · simp only [h, if_false]

/-- On a well-formed index no access goes through a null array. -/
theorem wf_no_fault (p : Poller) (sock : Sock) (hwf : index_wf p = true) :
    privhash_access_faults p sock = false := by
  unfold privhash_access_faults
  cases hp : p.privhash with
  | some mem => simp
  | none =>
    have hs : p.privhash_size = 0 := by simpa [index_wf, hp] using hwf
    simp only [hs, Option.isNone_none, Bool.and_true, decide_eq_false_iff_not]
    intro h
    have := h.2
    simp at this
    omega

/-- Clearing a slot that reads as null changes nothing. -/
theorem privhash_del_noop (p : Poller) (sock : Sock) (hwf : index_wf p = true)
    (h0 : tb_poller_privhash_get p sock = 0) : tb_poller_privhash_del p sock = p := by
  unfold tb_poller_privhash_del
  simp only
  by_cases h : 0 ≤ tb_sock2fd sock ∧ tb_sock2fd sock < (p.privhash_size : Int)
  · simp only [h, and_self, if_true]
    cases hp : p.privhash with
    | none => cases p; simp_all
    | some mem =>
      have hlen : mem.length = p.privhash_size := by simpa [index_wf, hp] using hwf
      have hslot : mem.getD (tb_sock2fd sock).toNat 0 = 0 := by
        simpa [tb_poller_privhash_get, h, hp] using h0
      have hlt : (tb_sock2fd sock).toNat < mem.length := by omega
      have hset : mem.set (tb_sock2fd sock).toNat 0 = mem := by
        apply List.ext_getElem?
        intro i
        by_cases h1 : (tb_sock2fd sock).toNat = i
        · subst h1
          rw [List.getD_eq_getElem?_getD, List.getElem?_eq_getElem hlt] at hslot
          rw [List.getElem?_eq_getElem hlt]
          simp only [Option.getD_some] at hslot
          simp [List.getElem?_set, hlt, hslot]
        · simp [List.getElem?_set, h1]
      cases p
      simp_all
  · simp only [h, if_false]

/-- A successful store of a non-null value is read back, and other
descriptors read as before. -/
theorem privhash_set_get (e : Env) (q : Poller) (c : Int) (w : Nat) (hq : index_wf q = true)
    (hc : 0 < c) (hw : w ≠ 0) (he : e.alloc_ok = true) (d2 : Int) (h0 : 0 ≤ d2) :
    tb_poller_privhash_get (tb_poller_privhash_set e q ⟨c⟩ w) ⟨d2⟩ =
      if d2 = c then w else tb_poller_privhash_get q ⟨d2⟩ := by
  obtain ⟨mem, hm, _, hsz, hget⟩ := privhash_set_spec e q c w hq hc hw he
  obtain ⟨n, rfl⟩ := Int.eq_ofNat_of_zero_le h0
  obtain ⟨m, rfl⟩ := Int.eq_ofNat_of_zero_le hc.le
  simp only [Int.toNat_ofNat] at hsz hget
  rw [privhash_get_eq _ _ (Int.ofNat_nonneg n), privhash_get_eq _ _ (Int.ofNat_nonneg n), hm,
    hsz, Option.getD_some]
  simp only [Int.toNat_ofNat, Nat.cast_lt, Nat.cast_inj, hget]
  by_cases h1 : n = m
  · subst h1
    simp
  · simp only [h1, if_false]
    by_cases h2 : n < q.privhash_size
    · simp [h2]
    · simp [h2]

theorem remove_first_if_mem (pred : Pollfd → Bool) (l : List Pollfd) (e : Pollfd)
    (he : e ∈ l) (hp : pred e = false) : e ∈ tb_remove_first_if pred l := by
  induction l with
  | nil => cases he
  | cons x xs ih =>
    rw [tb_remove_first_if]
    rcases List.mem_cons.mp he with h | h
    · subst h
      rw [if_neg (by simp [hp])]
      exact List.mem_cons_self _ _
    · by_cases hx : pred x = true
      · rw [if_pos hx]; exact h
      · rw [if_neg hx]; exact List.mem_cons_of_mem _ (ih h)

theorem walk_all_mem (fd : Int) (events : Nat) (l : List Pollfd) (e : Pollfd)
    (he : e ∈ l) (hfd : e.fd ≠ fd) :
    e ∈ tb_walk_all (fun item => tb_poller_walk_modify item (fd, events)) l := by
  induction l with
  | nil => cases he
  | cons x xs ih =>
    by_cases hx : x.fd = fd
    · rw [walk_all_end _ x { x with events := insert_events events } xs
        (by simp [walk_modify_eq, hx])]
      rcases List.mem_cons.mp he with h | h
      · subst h; exact absurd hx hfd
      · exact List.mem_cons_of_mem _ h
    · rw [walk_all_go _ x x xs (by simp [walk_modify_eq, hx])]
      rcases List.mem_cons.mp he with h | h
      · subst h; exact List.mem_cons_self _ _
      · exact List.mem_cons_of_mem _ (ih h)

/-- A call on another socket keeps the record of descriptor `w` with its
interest. -/
theorem op_keeps_record (w : Int) (ev : Nat) (p : Poller) (op : Op)
    (hop : op.avoids w = true) (h : ∃ e ∈ p.pfds, e.fd = w ∧ e.events = ev) :
    ∃ e ∈ (op.apply p).pfds, e.fd = w ∧ e.events = ev := by
  obtain ⟨e, he, hw, hev⟩ := h
  cases op with
  | insert env sock events priv =>
    cases sock with
    | none => exact ⟨e, he, hw, hev⟩
    | some s =>
      refine ⟨e, ?_, hw, hev⟩
      simp only [Op.apply]
      rw [(insert_fields env p s events priv).2.1]
      unfold tb_vector_insert_tail
      split_ifs
      · exact List.mem_append_left _ he
      · exact he
  | remove sock =>
    cases sock with
    | none => exact ⟨e, he, hw, hev⟩
    | some s =>
      refine ⟨e, ?_, hw, hev⟩
      simp only [Op.apply]
      rw [(remove_fields p s).2.1]
      have hs : s.fd ≠ w := by simpa [Op.avoids] using hop
      exact remove_first_if_mem _ _ e he
        (by simp only [tb_poller_walk_remove, tb_sock2fd, decide_eq_false_iff_not]; omega)
  | modify env sock events priv =>
    cases sock with
    | none => exact ⟨e, he, hw, hev⟩
    | some s =>
      refine ⟨e, ?_, hw, hev⟩
      simp only [Op.apply]
      rw [(modify_fields env p s events priv).2.1]
      have hs : s.fd ≠ w := by simpa [Op.avoids] using hop
      exact walk_all_mem _ _ _ e he (by simp only [tb_sock2fd]; omega)
  | clear => simp [Op.avoids] at hop

theorem run_ops_keeps_record (w : Int) (ev : Nat) (ops : List Op) (p : Poller)
    (hops : ∀ op ∈ ops, op.avoids w = true) (h : ∃ e ∈ p.pfds, e.fd = w ∧ e.events = ev) :
    ∃ e ∈ (run_ops p ops).pfds, e.fd = w ∧ e.events = ev := by
  induction ops generalizing p with
  | nil => exact h
  | cons op ops ih =>
    exact ih (op.apply p) (fun o ho => hops o (List.mem_cons_of_mem _ ho))
      (op_keeps_record w ev p op (hops op (List.mem_cons_self _ _)) h)

/-- What a successful `tb_poller_init` returns. -/
theorem init_some (maxn : Nat) (env : InitEnv) (p0 : Poller)
    (hinit : tb_poller_init maxn env = some p0) :
    ∃ s0 s1, env.pair = some (s0, s1) ∧ p0.pair0 = some s0 ∧ p0.pair1 = some s1 ∧
      p0.pfds = tb_vector_insert_tail env.ins [] ⟨s1.fd, POLLIN, 0⟩ ∧
      p0.privhash = none ∧ p0.privhash_size = 0 ∧ p0.wake = ['p'] := by
  unfold tb_poller_init at hinit
  split_ifs at hinit
  rcases hp : env.pair with _ | ⟨s0, s1⟩
  · rw [hp] at hinit; cases hinit
  · rw [hp] at hinit
    simp only [tb_poller_insert, privhash_set_zero] at hinit
    have := Option.some.inj hinit
    subst this
    exact ⟨s0, s1, rfl, rfl, rfl, rfl, rfl, rfl, rfl⟩

theorem index_wf_congr (p q : Poller) (h1 : q.privhash = p.privhash)
    (h2 : q.privhash_size = p.privhash_size) : index_wf q = index_wf p := by
  unfold index_wf
  rw [h1, h2]

/-- With a succeeding allocator a store keeps the index well formed and
does not shrink it; a store of a non-null value makes room for the
descriptor. -/
theorem privhash_set_mono (env : Env) (p : Poller) (sock : Sock) (priv : Nat)
    (hwf : index_wf p = true) (hok : env.alloc_ok = true) :
    index_wf (tb_poller_privhash_set env p sock priv) = true ∧
    p.privhash_size ≤ (tb_poller_privhash_set env p sock priv).privhash_size ∧
    (priv ≠ 0 →
      (tb_sock2fd sock + 1).toNat ≤ (tb_poller_privhash_set env p sock priv).privhash_size) := by
  by_cases hpriv : priv = 0
  · subst hpriv
    rw [privhash_set_zero]
    exact ⟨hwf, le_refl _, fun h => absurd rfl h⟩
  · unfold tb_poller_privhash_set
    simp only [hpriv, ne_eq, not_false_eq_true, if_true]
    cases hp : p.privhash with
    | none =>
      have hs : p.privhash_size = 0 := by simpa [index_wf, hp] using hwf
      simp [tb_nalloc0, hok, index_wf, hs]
    | some mem =>
      have hs : mem.length = p.privhash_size := by simpa [index_wf, hp] using hwf
      by_cases hg : (tb_sock2fd sock + 1).toNat > p.privhash_size
      · obtain ⟨mem1, h1, hl1, -⟩ := ralloc_ok env mem (tb_sock2fd sock + 1).toNat hok
        simp only [hg, if_true, h1]
        exact ⟨by simp [index_wf, length_memset, hl1], by omega, fun _ => le_refl _⟩
      · simp only [hg, if_false]
        exact ⟨by simp [index_wf, hs], le_refl _, fun _ => by omega⟩

theorem privhash_del_wf (p : Poller) (sock : Sock) (hwf : index_wf p = true) :
    index_wf (tb_poller_privhash_del p sock) = true := by
  unfold tb_poller_privhash_del
  simp only
  split_ifs
  · cases hp : p.privhash with
    | none => simpa [index_wf, hp] using hwf
    | some mem => simpa [index_wf, hp] using hwf
  · exact hwf

/-- One call with a succeeding allocator keeps the index well formed and
does not shrink it; an insert with non-null private data makes room for the
descriptor. -/
theorem op_apply_mono (p : Poller) (op : Op) (hwf : index_wf p = true)
    (hok : op.alloc_ok = true) :
    index_wf (op.apply p) = true ∧ p.privhash_size ≤ (op.apply p).privhash_size ∧
    (∀ env d events priv, op = Op.insert env (some ⟨d⟩) events priv → priv ≠ 0 →
      (d + 1).toNat ≤ (op.apply p).privhash_size) := by
  cases op with
  | insert env sock events priv =>
    cases sock with
    | none =>
      refine ⟨hwf, le_refl _, ?_⟩
      intro _ _ _ _ h
      cases h
    | some s =>
      obtain ⟨-, -, i2, i3, -⟩ := insert_fields env p s events priv
      obtain ⟨w1, w2, w3⟩ := privhash_set_mono env p s priv hwf hok
      simp only [Op.apply]
      refine ⟨by rw [index_wf_congr _ _ i2 i3]; exact w1, by rw [i3]; exact w2, ?_⟩
      intro env1 d ev1 priv1 h hp
      cases h
      rw [i3]
      exact w3 hp
  | remove sock =>
    cases sock with
    | none =>
      refine ⟨hwf, le_refl _, ?_⟩
      intro _ _ _ _ h
      cases h
    | some s =>
      obtain ⟨-, -, r2, r3, -⟩ := remove_fields p s
      simp only [Op.apply]
      refine ⟨?_, by rw [r3], ?_⟩
      · rw [index_wf_congr (tb_poller_privhash_del p s) _ r2
          (r3.trans (privhash_del_size p s).symm)]
        exact privhash_del_wf p s hwf
      · intro _ _ _ _ h
        cases h
  | modify env sock events priv =>
    cases sock with
    | none =>
      refine ⟨hwf, le_refl _, ?_⟩
      intro _ _ _ _ h
      cases h
    | some s =>
      obtain ⟨-, -, m2, m3, -⟩ := modify_fields env p s events priv
      obtain ⟨w1, w2, -⟩ := privhash_set_mono env p s priv hwf hok
      simp only [Op.apply]
      refine ⟨by rw [index_wf_congr _ _ m2 m3]; exact w1, by rw [m3]; exact w2, ?_⟩
      intro _ _ _ _ h
      cases h
  | clear =>
    have h1 : (tb_poller_clear p).privhash = p.privhash := by
      unfold tb_poller_clear; simp only; split_ifs <;> rfl
    have h2 : (tb_poller_clear p).privhash_size = p.privhash_size := by
      unfold tb_poller_clear; simp only; split_ifs <;> rfl
    simp only [Op.apply]
    refine ⟨by rw [index_wf_congr _ _ h1 h2]; exact hwf, by rw [h2], ?_⟩
    intro _ _ _ _ h
    cases h

theorem run_ops_mono (ops : List Op) (p : Poller) (hwf : index_wf p = true)
    (hok : ∀ op ∈ ops, op.alloc_ok = true) :
    index_wf (run_ops p ops) = true ∧ p.privhash_size ≤ (run_ops p ops).privhash_size ∧
    (∀ env d events priv, Op.insert env (some ⟨d⟩) events priv ∈ ops → priv ≠ 0 →
      (d + 1).toNat ≤ (run_ops p ops).privhash_size) := by
  induction ops generalizing p with
  | nil =>
    refine ⟨hwf, le_refl _, ?_⟩
    intro _ _ _ _ h
    cases h
  | cons op ops ih =>
    obtain ⟨a1, a2, a3⟩ := op_apply_mono p op hwf (hok op (List.mem_cons_self _ _))
    obtain ⟨b1, b2, b3⟩ := ih (op.apply p) a1 fun o ho => hok o (List.mem_cons_of_mem _ ho)
    refine ⟨b1, le_trans a2 b2, ?_⟩
    intro env d events priv h hp
    rcases List.mem_cons.mp h with h1 | h1
    · exact le_trans (a3 env d events priv h1.symm hp) b2
    · exact b3 env d events priv h1 hp

/-- A wait call leaves the capacity of the index as it is. -/
theorem wait_loop_size (mclock : Nat → Int) (timeout time : Int) (script : List PollRes)
    (st : WaitSt) :
    (wait_loop mclock timeout time script st).st.poller.privhash_size =
      st.poller.privhash_size := by
  induction script generalizing st with
  | nil =>
    unfold wait_loop
    obtain ⟨-, -, hp, -, -, -⟩ := wait_guard_frame mclock timeout time st
    rcases hg : wait_guard mclock timeout time st with ⟨g, st1⟩
    rw [hg] at hp
    simp only at hp
    cases g with
    | none => simp only; rw [hp]
    | some now =>
      simp only
      split_ifs
      · simp only; rw [hp]
      · simp only; rw [hp]
  | cons r script ih =>
    unfold wait_loop
    obtain ⟨-, -, hp, -, -, -⟩ := wait_guard_frame mclock timeout time st
    rcases hg : wait_guard mclock timeout time st with ⟨g, st1⟩
    rw [hg] at hp
    simp only at hp
    cases g with
    | none => simp only; rw [hp]
    | some now =>
      simp only
      split_ifs
      · simp only; rw [hp]
      · obtain ⟨-, -, -, b4, -⟩ := wait_body_spec timeout now r st1
        rw [hp] at b4
        rcases hw : wait_body timeout now r st1 with ⟨v, st2⟩
        rw [hw] at b4
        simp only at b4
        cases v with
        | some v => exact b4
        | none => simp only; rw [ih st2, b4]

/-! ## Insert, remove and modify: claims -/

/-- C11, refuted as stated: 42 is stored for socket 5; after a store of null
for socket 5, directly or through `tb_poller_modify` and `tb_poller_insert`
with null private data, 42 is still read for socket 5. -/
theorem privhash_set_null_keeps_value :
    tb_poller_privhash_get demo_priv ⟨5⟩ = 42 ∧
    tb_poller_privhash_get (tb_poller_privhash_set Env.good demo_priv ⟨5⟩ 0) ⟨5⟩ = 42 ∧
    tb_poller_privhash_get
      (tb_poller_modify Env.good demo_priv (some ⟨5⟩) TB_POLLER_EVENT_RECV 0).2 ⟨5⟩ = 42 ∧
    tb_poller_privhash_get
      (tb_poller_insert Env.good demo_priv (some ⟨5⟩) TB_POLLER_EVENT_RECV 0).2 ⟨5⟩ = 42 := by
  decide

/-- C11, amended: a store of null is no store at all.  `tb_poller_privhash_set`
with null private data leaves the poller as it is, and `tb_poller_insert`
and `tb_poller_modify` with null private data leave the array and its size
as they are, so every descriptor reads as before and the capacity is
unchanged. -/
theorem privhash_set_null_noop (env : Env) (p : Poller) (sock : Sock) (events : Nat) :
    tb_poller_privhash_set env p sock 0 = p ∧
    (tb_poller_insert env p (some sock) events 0).2.privhash = p.privhash ∧
    (tb_poller_insert env p (some sock) events 0).2.privhash_size = p.privhash_size ∧
    (tb_poller_modify env p (some sock) events 0).2.privhash = p.privhash ∧
    (tb_poller_modify env p (some sock) events 0).2.privhash_size = p.privhash_size ∧
    (∀ s2, tb_poller_privhash_get (tb_poller_insert env p (some sock) events 0).2 s2 =
      tb_poller_privhash_get p s2) ∧
    (∀ s2, tb_poller_privhash_get (tb_poller_modify env p (some sock) events 0).2 s2 =
      tb_poller_privhash_get p s2) := by
  obtain ⟨-, -, i1, i2, -⟩ := insert_fields env p sock events 0
  obtain ⟨-, -, m1, m2, -⟩ := modify_fields env p sock events 0
  rw [privhash_set_zero] at i1 i2 m1 m2
  exact ⟨privhash_set_zero env p sock, i1, i2, m1, m2,
    fun s2 => privhash_get_congr _ _ s2 i1 i2, fun s2 => privhash_get_congr _ _ s2 m1 m2⟩

/-- C12, refuted as stated: an insert whose append fails returns `true` and
leaves the table without the record; an insert and a modify whose
allocation fails return `true` and leave no private data for the socket, and
a failed growth loses the whole array. -/
theorem insert_modify_hide_failure :
    tb_poller_insert ⟨true, 0, false⟩ demo (some ⟨6⟩) TB_POLLER_EVENT_RECV 0 =
      (true, { demo with wake := ['p'] }) ∧
    (tb_poller_insert ⟨false, 0, true⟩ demo (some ⟨6⟩) TB_POLLER_EVENT_RECV 42).1 = true ∧
    tb_poller_privhash_get
      (tb_poller_insert ⟨false, 0, true⟩ demo (some ⟨6⟩) TB_POLLER_EVENT_RECV 42).2 ⟨6⟩ = 0 ∧
    (tb_poller_modify ⟨false, 0, true⟩ demo (some ⟨5⟩) TB_POLLER_EVENT_RECV 42).1 = true ∧
    tb_poller_privhash_get
      (tb_poller_modify ⟨false, 0, true⟩ demo (some ⟨5⟩) TB_POLLER_EVENT_RECV 42).2 ⟨5⟩ = 0 ∧
    (tb_poller_insert ⟨false, 0, true⟩ demo_priv (some ⟨7⟩) TB_POLLER_EVENT_RECV 43).1 = true ∧
    (tb_poller_insert ⟨false, 0, true⟩ demo_priv (some ⟨7⟩) TB_POLLER_EVENT_RECV 43).2.privhash
      = none := by
  decide

/-- C12, amended: `tb_poller_insert` and `tb_poller_modify` return `true` for
every socket that is not null, whatever the allocator and the table do.
When the append fails the table is as before; when the allocation for a
store of non-null private data fails, the array of the index is null
afterwards. -/
theorem insert_modify_return_true (env : Env) (p : Poller) (sock : Sock) (events priv : Nat) :
    (tb_poller_insert env p (some sock) events priv).1 = true ∧
    (tb_poller_modify env p (some sock) events priv).1 = true ∧
    (env.append_ok = false →
      (tb_poller_insert env p (some sock) events priv).2.pfds = p.pfds) ∧
    (env.alloc_ok = false → priv ≠ 0 →
      (p.privhash = none ∨ p.privhash_size < (tb_sock2fd sock + 1).toNat) →
      (tb_poller_insert env p (some sock) events priv).2.privhash = none ∧
      (tb_poller_modify env p (some sock) events priv).2.privhash = none) := by
  obtain ⟨i0, i1, i2, -, -⟩ := insert_fields env p sock events priv
  obtain ⟨m0, -, m2, -, -⟩ := modify_fields env p sock events priv
  refine ⟨i0, m0, ?_, ?_⟩
  · intro h
    rw [i1]
    simp [tb_vector_insert_tail, h]
  · intro h hpriv hgrow
    rw [i2, m2]
    have : (tb_poller_privhash_set env p sock priv).privhash = none := by
      unfold tb_poller_privhash_set
      simp only [hpriv, ne_eq, not_false_eq_true, if_true]
      cases hp : p.privhash with
      | none => simp [tb_nalloc0, h, hp]
      | some mem =>
        have hlt : (tb_sock2fd sock + 1).toNat > p.privhash_size := by
          rcases hgrow with h1 | h1
          · rw [hp] at h1; cases h1
          · exact h1
        simp [tb_ralloc, h, hlt]
    exact ⟨this, this⟩

/-- C13, refuted as stated: socket 7 was never inserted into the poller
reached from `demo` by `tb_poller_modify` on socket 7 with private data 42;
`tb_poller_remove` on socket 7 returns `true` and keeps the table, but it
erases the 42 held by the index. -/
theorem remove_erases_modify_data :
    (∀ e ∈ (tb_poller_modify Env.good demo (some ⟨7⟩) TB_POLLER_EVENT_RECV 42).2.pfds,
      e.fd ≠ 7) ∧
    tb_poller_privhash_get
      (tb_poller_modify Env.good demo (some ⟨7⟩) TB_POLLER_EVENT_RECV 42).2 ⟨7⟩ = 42 ∧
    (tb_poller_remove
      (tb_poller_modify Env.good demo (some ⟨7⟩) TB_POLLER_EVENT_RECV 42).2 (some ⟨7⟩)).1
      = true ∧
    (tb_poller_remove
      (tb_poller_modify Env.good demo (some ⟨7⟩) TB_POLLER_EVENT_RECV 42).2 (some ⟨7⟩)).2.pfds
      = (tb_poller_modify Env.good demo (some ⟨7⟩) TB_POLLER_EVENT_RECV 42).2.pfds ∧
    (tb_poller_modify Env.good demo (some ⟨7⟩) TB_POLLER_EVENT_RECV 42).2.privhash
      = some [0, 0, 0, 0, 0, 0, 0, 42] ∧
    (tb_poller_remove
      (tb_poller_modify Env.good demo (some ⟨7⟩) TB_POLLER_EVENT_RECV 42).2
      (some ⟨7⟩)).2.privhash = some [0, 0, 0, 0, 0, 0, 0, 0] := by
  decide

/-- C13, amended: on a well-formed index (the array is allocated whenever the
size is above 0), for a socket whose descriptor has no record in the table,
`tb_poller_remove` does not fault and returns `true`, leaves the table and
the capacity of the index as they are, and changes the index at most in the
slot of that descriptor, which reads as null afterwards while every other
descriptor reads as before.  When that slot already reads as null, as it
does when the index is unallocated, the index is exactly as before. -/
theorem remove_absent (p : Poller) (sock : Sock) (hwf : index_wf p = true)
    (habs : ∀ e ∈ p.pfds, e.fd ≠ tb_sock2fd sock) :
    tb_poller_remove_faults p (some sock) = false ∧
    (tb_poller_remove p (some sock)).1 = true ∧
    (tb_poller_remove p (some sock)).2.pfds = p.pfds ∧
    (tb_poller_remove p (some sock)).2.privhash_size = p.privhash_size ∧
    index_wf (tb_poller_remove p (some sock)).2 = true ∧
    tb_poller_privhash_get (tb_poller_remove p (some sock)).2 sock = 0 ∧
    (∀ s2, s2 ≠ sock →
      tb_poller_privhash_get (tb_poller_remove p (some sock)).2 s2 =
        tb_poller_privhash_get p s2) ∧
    (tb_poller_privhash_get p sock = 0 →
      (tb_poller_remove p (some sock)).2.privhash = p.privhash) := by
  obtain ⟨r0, r1, r2, r3, -⟩ := remove_fields p sock
  have hsz := (privhash_del_size p sock).symm
  refine ⟨wf_no_fault p sock hwf, r0, ?_, r3, ?_, ?_, ?_, ?_⟩
  · rw [r1]
    exact remove_first_if_absent _ _ fun e he => by simp [tb_poller_walk_remove, habs e he]
  · rw [index_wf_congr (tb_poller_privhash_del p sock) _ r2 (r3.trans hsz)]
    exact privhash_del_wf p sock hwf
  · rw [privhash_get_congr (tb_poller_privhash_del p sock) _ sock r2 (r3.trans hsz)]
    exact privhash_del_get_same p sock
  · intro s2 hne
    rw [privhash_get_congr (tb_poller_privhash_del p sock) _ s2 r2 (r3.trans hsz)]
    exact privhash_del_get_other p sock s2 hne
  · intro h0
    rw [r2, privhash_del_noop p sock hwf h0]

/-- C13, amended, at a concrete input: socket 7 on `demo`, whose index is
unallocated. -/
theorem remove_absent_witness :
    (tb_poller_remove demo (some ⟨7⟩)).2.pfds = demo.pfds ∧
    (tb_poller_remove demo (some ⟨7⟩)).2.privhash = demo.privhash :=
  ⟨(remove_absent demo ⟨7⟩ (by decide) (by decide)).2.2.1,
    (remove_absent demo ⟨7⟩ (by decide) (by decide)).2.2.2.2.2.2.2 (by decide)⟩

/-- C14, refuted as stated: socket 7 has no record in the table of `demo`,
yet `tb_poller_modify` on socket 7 with private data 42 allocates the index
and stores 42. -/
theorem modify_absent_stores_data :
    (∀ e ∈ demo.pfds, e.fd ≠ 7) ∧
    demo.privhash = none ∧ demo.privhash_size = 0 ∧
    (tb_poller_modify Env.good demo (some ⟨7⟩) TB_POLLER_EVENT_RECV 42).2.privhash
      = some [0, 0, 0, 0, 0, 0, 0, 42] ∧
    (tb_poller_modify Env.good demo (some ⟨7⟩) TB_POLLER_EVENT_RECV 42).2.privhash_size = 8 ∧
    tb_poller_privhash_get
      (tb_poller_modify Env.good demo (some ⟨7⟩) TB_POLLER_EVENT_RECV 42).2 ⟨7⟩ = 42 := by
  decide

/-- C14, amended: for a socket whose descriptor has no record in the table,
`tb_poller_modify` returns `true` and leaves the table as it is.  With null
private data the index is unchanged too.  With non-null private data the
index is what `tb_poller_privhash_set` makes of it: on a well-formed index,
with a descriptor above 0 and a succeeding allocator, the value is stored
for the descriptor and the capacity is at least the descriptor plus one. -/
theorem modify_absent (env : Env) (p : Poller) (sock : Sock) (events priv : Nat)
    (habs : ∀ e ∈ p.pfds, e.fd ≠ tb_sock2fd sock) :
    (tb_poller_modify env p (some sock) events priv).1 = true ∧
    (tb_poller_modify env p (some sock) events priv).2.pfds = p.pfds ∧
    (priv = 0 →
      (tb_poller_modify env p (some sock) events priv).2.privhash = p.privhash ∧
      (tb_poller_modify env p (some sock) events priv).2.privhash_size = p.privhash_size) ∧
    (tb_poller_modify env p (some sock) events priv).2.privhash =
      (tb_poller_privhash_set env p sock priv).privhash ∧
    (tb_poller_modify env p (some sock) events priv).2.privhash_size =
      (tb_poller_privhash_set env p sock priv).privhash_size ∧
    (priv ≠ 0 → index_wf p = true → 0 < tb_sock2fd sock → env.alloc_ok = true →
      tb_poller_privhash_get (tb_poller_modify env p (some sock) events priv).2 sock = priv ∧
      (tb_sock2fd sock + 1).toNat ≤
        (tb_poller_modify env p (some sock) events priv).2.privhash_size) := by
  obtain ⟨m0, m1, m2, m3, -⟩ := modify_fields env p sock events priv
  refine ⟨m0, ?_, ?_, m2, m3, ?_⟩
  · rw [m1]
    exact walk_all_absent _ _ _ habs
  · intro h0
    subst h0
    rw [m2, m3, privhash_set_zero]
    exact ⟨rfl, rfl⟩
  · intro hpriv hwf hfd hok
    obtain ⟨d⟩ := sock
    simp only [tb_sock2fd] at hfd ⊢
    obtain ⟨mem, -, -, hsz, -⟩ := privhash_set_spec env p d priv hwf hfd hpriv hok
    constructor
    · rw [privhash_get_congr _ _ _ m2 m3, privhash_set_get env p d priv hwf hfd hpriv hok d hfd.le,
        if_pos rfl]
    · rw [m3, hsz]
      have : (d + 1).toNat = d.toNat + 1 := by omega
      rw [this]
      exact le_max_right _ _

/-- C14, amended, at a concrete input: socket 7 on `demo`, null private
data. -/
theorem modify_absent_witness :
    (tb_poller_modify Env.good demo (some ⟨7⟩) TB_POLLER_EVENT_RECV 0).2.pfds = demo.pfds ∧
    (tb_poller_modify Env.good demo (some ⟨7⟩) TB_POLLER_EVENT_RECV 0).2.privhash
      = demo.privhash :=
  ⟨(modify_absent Env.good demo ⟨7⟩ TB_POLLER_EVENT_RECV 0 (by decide)).2.1,
    ((modify_absent Env.good demo ⟨7⟩ TB_POLLER_EVENT_RECV 0 (by decide)).2.2.1 rfl).1⟩

/-- C15: after a successful `tb_poller_init` whose append of the first record
succeeds, the table is exactly the record of the read end `pair[1]` with
interest POLLIN; and after every sequence of insert, remove and modify
calls on sockets whose descriptors differ from the one of the read end, the
table still has a record of the read end with interest POLLIN. -/
theorem wake_record_kept (maxn : Nat) (env : InitEnv) (p0 : Poller) (s0 s1 : Sock)
    (hinit : tb_poller_init maxn env = some p0) (hpair : env.pair = some (s0, s1))
    (happ : env.ins.append_ok = true) :
    p0.pair1 = some s1 ∧ p0.pfds = [⟨tb_sock2fd s1, POLLIN, 0⟩] ∧
    ∀ ops : List Op, (∀ op ∈ ops, op.avoids (tb_sock2fd s1) = true) →
      ∃ e ∈ (run_ops p0 ops).pfds, e.fd = tb_sock2fd s1 ∧ e.events = POLLIN := by
  obtain ⟨t0, t1, h1, -, h3, h4, -⟩ := init_some maxn env p0 hinit
  rw [hpair] at h1
  obtain ⟨rfl, rfl⟩ := Prod.mk.inj (Option.some.inj h1)
  have htab : p0.pfds = [⟨tb_sock2fd s1, POLLIN, 0⟩] := by
    rw [h4]
    simp [tb_vector_insert_tail, happ, tb_sock2fd]
  refine ⟨h3, htab, ?_⟩
  intro ops hops
  exact run_ops_keeps_record _ _ ops p0 hops
    ⟨_, by rw [htab]; exact List.mem_cons_self _ _, rfl, rfl⟩

/-- C15, at a concrete input: the poller of `demo_env` after an insert of
socket 5, a modify of socket 5 and a remove of socket 5. -/
theorem wake_record_kept_witness :
    ∃ e ∈ (run_ops ((tb_poller_init 8 demo_env).getD demo)
        [Op.insert Env.good (some ⟨5⟩) TB_POLLER_EVENT_RECV 42,
         Op.modify Env.good (some ⟨5⟩) TB_POLLER_EVENT_SEND 0,
         Op.remove (some ⟨5⟩)]).pfds,
      e.fd = tb_sock2fd ⟨4⟩ ∧ e.events = POLLIN :=
  (wake_record_kept 8 demo_env ((tb_poller_init 8 demo_env).getD demo) ⟨3⟩ ⟨4⟩
    (by decide) (by decide) (by decide)).2.2 _ (by decide)

/-- C16: in every state reached from a successful `tb_poller_init` by a
sequence of insert, remove, modify and clear calls whose allocations
succeed, the capacity of the index is at least `d + 1` for every descriptor
`d ≥ 0` that one of the calls inserted with non-null private data; the
capacity is never below the initial one, no further such call decreases it,
kill, spak and wait calls leave it as it is, and `tb_poller_exit` resets it
to 0. -/
theorem privhash_size_invariant (maxn : Nat) (env : InitEnv) (p0 : Poller) (ops : List Op)
    (hinit : tb_poller_init maxn env = some p0) (hok : ∀ op ∈ ops, op.alloc_ok = true) :
    (∀ env1 d events priv, Op.insert env1 (some ⟨d⟩) events priv ∈ ops → priv ≠ 0 → 0 ≤ d →
      d + 1 ≤ ((run_ops p0 ops).privhash_size : Int)) ∧
    p0.privhash_size ≤ (run_ops p0 ops).privhash_size ∧
    (∀ op : Op, op.alloc_ok = true →
      (run_ops p0 ops).privhash_size ≤ (op.apply (run_ops p0 ops)).privhash_size) ∧
    (tb_poller_kill (run_ops p0 ops)).privhash_size = (run_ops p0 ops).privhash_size ∧
    (tb_poller_spak (run_ops p0 ops)).privhash_size = (run_ops p0 ops).privhash_size ∧
    (∀ (mclock : Nat → Int) (timeout : Int) (script : List PollRes),
      (tb_poller_wait mclock (run_ops p0 ops) timeout script).st.poller.privhash_size =
        (run_ops p0 ops).privhash_size) ∧
    (tb_poller_exit (run_ops p0 ops)).privhash_size = 0 := by
  obtain ⟨t0, t1, -, -, -, -, h5, h6, -⟩ := init_some maxn env p0 hinit
  have hwf : index_wf p0 = true := by simp [index_wf, h5, h6]
  obtain ⟨a1, a2, a3⟩ := run_ops_mono ops p0 hwf hok
  refine ⟨?_, a2, ?_, ?_, ?_, ?_, rfl⟩
  · intro env1 d events priv h hp hd
    have := a3 env1 d events priv h hp
    omega
  · intro op hop
    exact (op_apply_mono _ op a1 hop).2.1
  · unfold tb_poller_kill
    split_ifs <;> rfl
  · unfold tb_poller_spak
    split_ifs <;> rfl
  · intro mclock timeout script
    exact wait_loop_size mclock timeout (mclock 0) script _

/-- C16, at a concrete input: socket 5 inserted with private data 42 and
removed again. -/
theorem privhash_size_invariant_witness :
    (5 : Int) + 1 ≤ ((run_ops ((tb_poller_init 8 demo_env).getD demo)
        [Op.insert Env.good (some ⟨5⟩) TB_POLLER_EVENT_RECV 42, Op.clear,
         Op.remove (some ⟨5⟩)]).privhash_size : Int) :=
  (privhash_size_invariant 8 demo_env ((tb_poller_init 8 demo_env).getD demo)
    [Op.insert Env.good (some ⟨5⟩) TB_POLLER_EVENT_RECV 42, Op.clear, Op.remove (some ⟨5⟩)]
    (by decide) (by decide)).1 Env.good 5 TB_POLLER_EVENT_RECV 42 (by decide) (by decide)
    (by decide)

/-- C17: the code at the failing input.  In `demo_lost` the reallocation for
socket 7 failed: the array of the index is null and its size is still 6,
the size that went with the array that was lost.  Socket 5 has a record in
the table, and `tb_poller_remove` on socket 5 finds 5 below the size and
writes slot 5 through the null array: the call faults instead of returning
success. -/
theorem remove_faults_after_failed_growth :
    demo_lost.pfds = [⟨4, POLLIN, 0⟩, ⟨5, POLLIN, 0⟩, ⟨7, POLLIN, 0⟩] ∧
    demo_lost.privhash = none ∧ demo_lost.privhash_size = 6 ∧
    index_wf demo_lost = false ∧
    privhash_access_faults demo_lost ⟨5⟩ = true ∧
    tb_poller_remove_faults demo_lost (some ⟨5⟩) = true := by
  decide

/-- On a well-formed index, for a socket whose descriptor has a record in
the table, `tb_poller_remove` does not fault, returns `true` and erases
exactly the first record with that descriptor: the records before and after
it are kept as they are and in order, and the table is one record shorter.
Afterwards the descriptor reads as null in the index and every other
descriptor reads as before. -/
theorem remove_present (p : Poller) (sock : Sock) (hwf : index_wf p = true)
    (hex : ∃ e ∈ p.pfds, e.fd = tb_sock2fd sock) :
    tb_poller_remove_faults p (some sock) = false ∧
    (tb_poller_remove p (some sock)).1 = true ∧
    (∃ pre e post, p.pfds = pre ++ e :: post ∧ e.fd = tb_sock2fd sock ∧
      (∀ x ∈ pre, x.fd ≠ tb_sock2fd sock) ∧
      (tb_poller_remove p (some sock)).2.pfds = pre ++ post) ∧
    (tb_poller_remove p (some sock)).2.pfds.length + 1 = p.pfds.length ∧
    tb_poller_privhash_get (tb_poller_remove p (some sock)).2 sock = 0 ∧
    (∀ s2, s2 ≠ sock →
      tb_poller_privhash_get (tb_poller_remove p (some sock)).2 s2 =
        tb_poller_privhash_get p s2) := by
  obtain ⟨r0, r1, r2, r3, -⟩ := remove_fields p sock
  have hsz := (privhash_del_size p sock).symm
  obtain ⟨pre, e, post, h1, h2, h3⟩ :=
    first_split (fun item => tb_poller_walk_remove item (tb_sock2fd sock)) p.pfds
      (by
        obtain ⟨e, he, hfd⟩ := hex
        exact ⟨e, he, by simp [tb_poller_walk_remove, hfd]⟩)
  have hrem : (tb_poller_remove p (some sock)).2.pfds = pre ++ post := by
    rw [r1, h1]
    exact remove_first_if_split _ pre post e h3 h2
  refine ⟨wf_no_fault p sock hwf, r0, ⟨pre, e, post, h1, ?_, ?_, hrem⟩, ?_, ?_, ?_⟩
  · simpa [tb_poller_walk_remove] using h2
  · intro x hx
    simpa [tb_poller_walk_remove] using h3 x hx
  · rw [hrem, h1]
    simp only [List.length_append, List.length_cons]
    omega
  · rw [privhash_get_congr (tb_poller_privhash_del p sock) _ sock r2 (r3.trans hsz)]
    exact privhash_del_get_same p sock
  · intro s2 hne
    rw [privhash_get_congr (tb_poller_privhash_del p sock) _ s2 r2 (r3.trans hsz)]
    exact privhash_del_get_other p sock s2 hne

/-- The removal of socket 5 from `demo_priv`, which holds 42 for it and has a
well-formed index. -/
theorem remove_present_demo :
    (tb_poller_remove demo_priv (some ⟨5⟩)).2.pfds.length + 1 = demo_priv.pfds.length ∧
    tb_poller_privhash_get (tb_poller_remove demo_priv (some ⟨5⟩)).2 ⟨5⟩ = 0 :=
  ⟨(remove_present demo_priv ⟨5⟩ (by decide) (by decide)).2.2.2.1,
    (remove_present demo_priv ⟨5⟩ (by decide) (by decide)).2.2.2.2.1⟩

/-- C18: the native interest computed from an events bitset is POLLIN exactly
when READABLE is in it, together with POLLOUT exactly when WRITABLE is in
it, and nothing else.  `tb_poller_insert` with a succeeding append adds one
record at the tail, with the descriptor of the socket and this interest.
`tb_poller_modify` puts this interest into the first record with the
descriptor of the socket and leaves every other record as it is; the table
keeps its length and the order of its descriptors. -/
theorem insert_modify_interest (env : Env) (p : Poller) (sock : Sock) (events priv : Nat) :
    insert_events events =
      (if events &&& TB_POLLER_EVENT_RECV ≠ 0 then POLLIN else 0) |||
      (if events &&& TB_POLLER_EVENT_SEND ≠ 0 then POLLOUT else 0) ∧
    (insert_events events &&& POLLIN ≠ 0 ↔ events &&& TB_POLLER_EVENT_RECV ≠ 0) ∧
    (insert_events events &&& POLLOUT ≠ 0 ↔ events &&& TB_POLLER_EVENT_SEND ≠ 0) ∧
    insert_events events &&& (POLLIN ||| POLLOUT) = insert_events events ∧
    (env.append_ok = true →
      (tb_poller_insert env p (some sock) events priv).2.pfds =
        p.pfds ++ [⟨tb_sock2fd sock, insert_events events, 0⟩]) ∧
    (∀ pre e post, p.pfds = pre ++ e :: post → e.fd = tb_sock2fd sock →
      (∀ x ∈ pre, x.fd ≠ tb_sock2fd sock) →
      (tb_poller_modify env p (some sock) events priv).2.pfds =
        pre ++ { e with events := insert_events events } :: post) ∧
    (tb_poller_modify env p (some sock) events priv).2.pfds.length = p.pfds.length ∧
    (tb_poller_modify env p (some sock) events priv).2.pfds.map Pollfd.fd =
      p.pfds.map Pollfd.fd := by
  obtain ⟨-, i1, -, -, -⟩ := insert_fields env p sock events priv
  obtain ⟨-, m1, -, -, -⟩ := modify_fields env p sock events priv
  have hfds := walk_all_fds (tb_sock2fd sock) events p.pfds
  have hbits : insert_events events =
      (if events &&& TB_POLLER_EVENT_RECV ≠ 0 then POLLIN else 0) |||
      (if events &&& TB_POLLER_EVENT_SEND ≠ 0 then POLLOUT else 0) := by
    unfold insert_events
    by_cases h1 : events &&& TB_POLLER_EVENT_RECV = 0 <;>
      by_cases h2 : events &&& TB_POLLER_EVENT_SEND = 0 <;> simp [h1, h2]
  refine ⟨hbits, ?_, ?_, ?_, ?_, ?_, ?_, ?_⟩
  · rw [hbits]
    by_cases h1 : events &&& TB_POLLER_EVENT_RECV = 0 <;>
      by_cases h2 : events &&& TB_POLLER_EVENT_SEND = 0 <;> simp [h1, h2] <;> decide
  · rw [hbits]
    by_cases h1 : events &&& TB_POLLER_EVENT_RECV = 0 <;>
      by_cases h2 : events &&& TB_POLLER_EVENT_SEND = 0 <;> simp [h1, h2] <;> decide
  · rw [hbits]
    by_cases h1 : events &&& TB_POLLER_EVENT_RECV = 0 <;>
      by_cases h2 : events &&& TB_POLLER_EVENT_SEND = 0 <;> simp [h1, h2] <;> decide
  · intro h
    rw [i1]
    simp [tb_vector_insert_tail, h]
  · intro pre e post h1 h2 h3
    rw [m1, h1]
    exact walk_all_split _ _ pre post e h3 h2
  · rw [m1]
    have := congrArg List.length hfds
    simpa using this
  · rw [m1]
    exact hfds

/-- C18, at a concrete input: READABLE and WRITABLE give POLLIN and POLLOUT,
and a modify of socket 5 of `demo` rewrites the record of socket 5 only. -/
theorem insert_modify_interest_witness :
    insert_events (TB_POLLER_EVENT_RECV ||| TB_POLLER_EVENT_SEND) = POLLIN ||| POLLOUT ∧
    (tb_poller_modify Env.good demo (some ⟨5⟩) TB_POLLER_EVENT_SEND 0).2.pfds =
      [⟨4, POLLIN, POLLIN⟩] ++ [⟨5, POLLOUT, 0⟩] :=
  ⟨by decide,
    (insert_modify_interest Env.good demo ⟨5⟩ TB_POLLER_EVENT_SEND 0).2.2.2.2.2.1
      [⟨4, POLLIN, POLLIN⟩] ⟨5, POLLIN, 0⟩ [] (by decide) (by decide) (by decide)⟩

/-! ## Counting: lemma and claim -/

/-- The walk from a position that reaches `tail` after exactly `r` steps
adds to the count the number of those `r` items that compare equal. -/
theorem count_for_run (it : Iterator) (tail data : Nat) (comp : Nat → Nat → Int) (r : Nat) :
    ∀ (fuel itor count : Nat), it.next^[r] itor = tail →
      (∀ j < r, it.next^[j] itor ≠ tail) → r ≤ fuel →
      tb_count_for it tail data comp fuel itor count =
        some (count + (List.range r).countP
          fun j => decide (comp (it.item (it.next^[j] itor)) data = 0)) := by
  induction r with
  | zero =>
    intro fuel itor count hreach _ _
    have h : itor = tail := by simpa using hreach
    cases fuel <;> simp [tb_count_for, h]
  | succ r ih =>
    intro fuel itor count hreach hmin hfuel
    obtain ⟨f, rfl⟩ : ∃ f, fuel = f + 1 := ⟨fuel - 1, by omega⟩
    have h0 : itor ≠ tail := by simpa using hmin 0 (Nat.succ_pos r)
    have hreach1 : it.next^[r] (it.next itor) = tail := by
      rw [← Function.iterate_succ_apply]; exact hreach
    have hmin1 : ∀ j < r, it.next^[j] (it.next itor) ≠ tail := by
      intro j hj
      rw [← Function.iterate_succ_apply]
      exact hmin (j + 1) (by omega)
    rw [tb_count_for, if_neg h0]
    simp only
    rw [ih f (it.next itor) _ hreach1 hmin1 (by omega), List.range_succ_eq_map,
      List.countP_cons, List.countP_map]
    simp only [Function.iterate_zero, id_eq, Option.some.injEq]
    have hfun : ((fun j => decide (comp (it.item (it.next^[j] itor)) data = 0)) ∘ Nat.succ) =
        fun j => decide (comp (it.item (it.next^[j] (it.next itor))) data = 0) := by
      funext j
      simp [Function.iterate_succ_apply]
    rw [hfun]
    by_cases hc : comp (it.item itor) data = 0
    · simp [hc]; omega
    · simp [hc]

/-- C19: for a forward-mode iterator and a range from `head` to a different
`tail` that the walk reaches after exactly `k` steps, `tb_count` returns the
number of the `k` items of the range for which the comparator (the one of
the iterator when `comp` is null) gives 0, a value between 0 and `k`.  For
an empty range, for a null iterator and for an iterator without the forward
mode it returns the value `tail` itself.  `tb_count_all` is `tb_count` from
the head to the tail of the iterator. -/
theorem count_spec (it : Iterator) (head tail data : Nat) (comp : Option (Nat → Nat → Int))
    (fuel : Nat) :
    (it.mode &&& TB_ITERATOR_MODE_FORWARD ≠ 0 → head ≠ tail →
      ∀ k, it.next^[k] head = tail → (∀ j < k, it.next^[j] head ≠ tail) → k ≤ fuel →
        tb_count (some it) head tail data comp fuel =
          some ((List.range k).countP fun j =>
            decide ((comp.getD it.comp) (it.item (it.next^[j] head)) data = 0)) ∧
        ((List.range k).countP fun j =>
            decide ((comp.getD it.comp) (it.item (it.next^[j] head)) data = 0)) ≤ k) ∧
    (it.mode &&& TB_ITERATOR_MODE_FORWARD ≠ 0 →
      tb_count (some it) tail tail data comp fuel = some tail) ∧
    tb_count none head tail data comp fuel = some tail ∧
    (it.mode &&& TB_ITERATOR_MODE_FORWARD = 0 →
      tb_count (some it) head tail data comp fuel = some tail) ∧
    tb_count_all it data comp fuel = tb_count (some it) it.head it.tail data comp fuel := by
  refine ⟨?_, ?_, rfl, ?_, rfl⟩
  · intro hfw hne k hreach hmin hfuel
    constructor
    · unfold tb_count
      simp only [hfw, hne, if_false]
      rw [count_for_run it tail data _ k fuel head 0 hreach hmin hfuel, Nat.zero_add]
      cases comp <;> rfl
    · calc _ ≤ (List.range k).length := List.countP_le_length _
        _ = k := List.length_range k
  · intro hfw
    simp [tb_count, hfw]
  · intro hnf
    simp [tb_count, hnf]

/-- C19, at a concrete input: the array 3, 5, 3, 7 holds two items equal to 3
between the positions 0 and 4. -/
theorem count_spec_witness :
    tb_count (some (array_iterator [3, 5, 3, 7])) 0 4 3 none 4 = some 2 :=
  ((count_spec (array_iterator [3, 5, 3, 7]) 0 4 3 none 4).1 (by decide) (by decide) 4
    (by decide) (by decide) (by decide)).1.trans (by decide)

/-! ## strncpy: lemmas and claim -/

/-- A source made of `body` without NUL, a NUL and anything else: the bytes
of `body` are not 0 and the byte after them is. -/
theorem source_bytes (body rest : List Nat) (hbody : ∀ c ∈ body, c ≠ 0) (j : Nat)
    (hj : j ≤ body.length) :
    (j < body.length → (body ++ 0 :: rest).getD j 0 ≠ 0 ∧
      (body ++ 0 :: rest)[j]? = body[j]?) ∧
    (j = body.length → (body ++ 0 :: rest).getD j 0 = 0) := by
  constructor
  · intro h
    have h1 : (body ++ 0 :: rest)[j]? = body[j]? := List.getElem?_append_left h
    refine ⟨?_, h1⟩
    rw [List.getD_eq_getElem?_getD, h1, List.getElem?_eq_getElem h, Option.getD_some]
    exact hbody _ (List.getElem_mem _)
  · intro h
    subst h
    rw [List.getD_eq_getElem?_getD, List.getElem?_append_right (le_refl _)]
    simp

theorem strncpy_loop_succ (mem2 : List Nat) (n s s2 : Nat) (st : Strncpy) :
    tb_strncpy_loop mem2 (n + 1) s s2 st =
      tb_strncpy_loop mem2 n (s + 1) (if mem2.getD s2 0 ≠ 0 then s2 + 1 else s2)
        { st with s1 := st.s1.set s (mem2.getD s2 0), reads := st.reads ++ [s2],
                  iters := st.iters + 1 } := by
  rfl

/-- The loop with `k` iterations to go, from the offsets `s` and `j`, the
source offset being at most the length of the string. -/
theorem strncpy_loop_spec (body rest : List Nat) (hbody : ∀ c ∈ body, c ≠ 0) (k : Nat) :
    ∀ (s j : Nat) (st : Strncpy), j ≤ body.length →
      (tb_strncpy_loop (body ++ 0 :: rest) k s j st).ret = s + k ∧
      (tb_strncpy_loop (body ++ 0 :: rest) k s j st).iters = st.iters + k ∧
      (tb_strncpy_loop (body ++ 0 :: rest) k s j st).s1.length = st.s1.length ∧
      (∀ i, i < s ∨ s + k ≤ i →
        (tb_strncpy_loop (body ++ 0 :: rest) k s j st).s1[i]? = st.s1[i]?) ∧
      (∀ t, t < k → s + t < st.s1.length →
        (tb_strncpy_loop (body ++ 0 :: rest) k s j st).s1[s + t]? =
          some ((body ++ 0 :: rest).getD (min (j + t) body.length) 0)) ∧
      (∀ r ∈ (tb_strncpy_loop (body ++ 0 :: rest) k s j st).reads,
        r ∈ st.reads ∨ r ≤ body.length) := by
  induction k with
  | zero =>
    intro s j st _
    exact ⟨rfl, rfl, rfl, fun _ _ => rfl, fun t ht => absurd ht (Nat.not_lt_zero t),
      fun r hr => Or.inl hr⟩
  | succ k ih =>
    intro s j st hj
    obtain ⟨b1, b2⟩ := source_bytes body rest hbody j hj
    have hj1 : (if (body ++ 0 :: rest).getD j 0 ≠ 0 then j + 1 else j) ≤ body.length := by
      by_cases hlt : j < body.length
      · rw [if_pos (b1 hlt).1]; omega
      · rw [if_neg (by simpa using b2 (by omega))]; exact hj
    have hmin : ∀ t, min ((if (body ++ 0 :: rest).getD j 0 ≠ 0 then j + 1 else j) + t)
        body.length = min (j + (t + 1)) body.length := by
      intro t
      by_cases hlt : j < body.length
      · rw [if_pos (b1 hlt).1]; congr 1; omega
      · rw [if_neg (by simpa using b2 (by omega))]
        have : j = body.length := by omega
        omega
    rw [strncpy_loop_succ]
    obtain ⟨i1, i2, i3, i4, i5, i6⟩ := ih (s + 1)
      (if (body ++ 0 :: rest).getD j 0 ≠ 0 then j + 1 else j)
      { st with s1 := st.s1.set s ((body ++ 0 :: rest).getD j 0), reads := st.reads ++ [j],
                iters := st.iters + 1 } hj1
    simp only [List.length_set] at i2 i3 i4 i5 i6
    refine ⟨by rw [i1]; omega, by rw [i2]; omega, i3, ?_, ?_, ?_⟩
    · intro i hi
      rw [i4 i (by omega), List.getElem?_set_ne (by omega)]
    · intro t ht hlen
      by_cases ht0 : t = 0
      · subst ht0
        have hs : s < st.s1.length := by omega
        simp only [Nat.add_zero]
        rw [i4 s (by omega), Nat.min_eq_left hj]
        simp [List.getElem?_set, hs]
      · obtain ⟨u, rfl⟩ : ∃ u, t = u + 1 := ⟨t - 1, by omega⟩
        have := i5 u (by omega) (by omega)
        rw [hmin u] at this
        rw [← this]
        congr 1
        omega
    · intro r hr
      rcases i6 r hr with h | h
      · simp only [List.mem_append, List.mem_singleton] at h
        rcases h with h | h
        · exact Or.inl h
        · exact Or.inr (h ▸ hj)
      · exact Or.inr h

/-- C20: for a destination with room for `n` bytes and a source that holds a
string of length `L` (bytes other than NUL, then NUL), the generic
`tb_strncpy` runs exactly `n` iterations and returns the pointer `s1 + n`.
Of the destination it writes the first `n` bytes: byte `i` of the source for
`i < min L n`, and 0 from `min L n` up to `n`; the bytes from `n` on are as
before.  It reads the source at offsets up to `L` only, and the bytes
written contain a NUL exactly when `L < n`. -/
theorem strncpy_spec (mem1 body rest : List Nat) (n : Nat) (hroom : n ≤ mem1.length)
    (hbody : ∀ c ∈ body, c ≠ 0) :
    ∃ out, tb_strncpy (some mem1) (some (body ++ 0 :: rest)) n = some out ∧
      out.iters = n ∧ out.ret = n ∧ out.s1.length = mem1.length ∧
      (∀ i, i < min body.length n → out.s1[i]? = body[i]?) ∧
      (∀ i, min body.length n ≤ i → i < n → out.s1[i]? = some 0) ∧
      (∀ i, n ≤ i → out.s1[i]? = mem1[i]?) ∧
      (∀ r ∈ out.reads, r ≤ body.length) ∧
      ((∃ i, i < n ∧ out.s1[i]? = some 0) ↔ body.length < n) := by
  obtain ⟨l1, l2, l3, l4, l5, l6⟩ :=
    strncpy_loop_spec body rest hbody n 0 0 ⟨mem1, 0, [], 0⟩ (Nat.zero_le _)
  simp only [Nat.zero_add] at l1 l2 l4 l5
  have hlow : ∀ i, i < min body.length n →
      (tb_strncpy_loop (body ++ 0 :: rest) n 0 0 ⟨mem1, 0, [], 0⟩).s1[i]? = body[i]? := by
    intro i hi
    have hi1 : i < body.length := lt_of_lt_of_le hi (Nat.min_le_left _ _)
    have hi2 : i < n := lt_of_lt_of_le hi (Nat.min_le_right _ _)
    rw [l5 i hi2 (by show i < mem1.length; omega), Nat.min_eq_left hi1.le, List.getD_eq_getElem?_getD,
      ((source_bytes body rest hbody i hi1.le).1 hi1).2, List.getElem?_eq_getElem hi1]
    rfl
  have hhigh : ∀ i, min body.length n ≤ i → i < n →
      (tb_strncpy_loop (body ++ 0 :: rest) n 0 0 ⟨mem1, 0, [], 0⟩).s1[i]? = some 0 := by
    intro i hi hin
    have hL : body.length ≤ i := by
      rcases Nat.le_total body.length n with h | h
      · rwa [Nat.min_eq_left h] at hi
      · rw [Nat.min_eq_right h] at hi; omega
    rw [l5 i hin (by show i < mem1.length; omega), Nat.min_eq_right hL,
      (source_bytes body rest hbody body.length (le_refl _)).2 rfl]
  refine ⟨_, rfl, l2, l1, l3, hlow, hhigh, ?_, ?_, ?_⟩
  · intro i hi
    exact l4 i (Or.inr hi)
  · intro r hr
    rcases l6 r hr with h | h
    · cases h
    · exact h
  · constructor
    · rintro ⟨i, hin, h0⟩
      by_contra hcon
      have hi : i < min body.length n := by
        rw [Nat.min_eq_right (by omega)]; exact hin
      have hi1 : i < body.length := by omega
      rw [hlow i hi, List.getElem?_eq_getElem hi1] at h0
      exact hbody _ (List.getElem_mem _) (Option.some.inj h0)
    · intro h
      exact ⟨body.length, h, hhigh _ (Nat.min_le_left _ _) h⟩

/-- C20, at a concrete input: the string "hi" copied with `n = 4` into a
buffer of six bytes. -/
theorem strncpy_spec_witness :
    ∃ out, tb_strncpy (some [9, 9, 9, 9, 9, 9]) (some ([104, 105] ++ 0 :: [7, 7])) 4 = some out ∧
      out.iters = 4 ∧ out.ret = 4 ∧ out.s1.length = [9, 9, 9, 9, 9, 9].length ∧
      (∀ i, i < min [104, 105].length 4 → out.s1[i]? = [104, 105][i]?) ∧
      (∀ i, min [104, 105].length 4 ≤ i → i < 4 → out.s1[i]? = some 0) ∧
      (∀ i, 4 ≤ i → out.s1[i]? = [9, 9, 9, 9, 9, 9][i]?) ∧
      (∀ r ∈ out.reads, r ≤ [104, 105].length) ∧
      ((∃ i, i < 4 ∧ out.s1[i]? = some 0) ↔ [104, 105].length < 4) :=
  strncpy_spec [9, 9, 9, 9, 9, 9] [104, 105] [7, 7] 4 (by decide) (by decide)

end TBox
